import Mathlib

/-!
Verification of the Arazzo document validator (`src/models/arazzo.py`).

The development shallowly embeds the validator: a generic decoded value type
`JValue` models the trees produced by a YAML/JSON decoder, and for each
pydantic model of the source a record type plus a validation function is
given.  Field-level validation accumulates errors across sibling fields
(pydantic collects every field error), while each model-level
`model_validator(mode='after')` runs only once every declared field of that
node validated, and raises at most one error (the source raises exceptions).
-/

namespace Arazzo

/-- Generic decoded value: null / bool / number / string / array / mapping,
as produced by `yaml.safe_load` or `json.loads`.  Numbers are embedded as
rationals, covering both ints and decimal floats. -/
inductive JValue where
  | null : JValue
  | bool (b : Bool) : JValue
  | num (q : Rat) : JValue
  | str (s : String) : JValue
  | arr (xs : List JValue) : JValue
  | obj (fs : List (String × JValue)) : JValue

namespace JValue

mutual

def beq : JValue → JValue → Bool
  | null, null => true
  | bool a, bool b => a == b
  | num a, num b => a == b
  | str a, str b => a == b
  | arr xs, arr ys => beqList xs ys
  | obj fs, obj gs => beqFields fs gs
  | _, _ => false

def beqList : List JValue → List JValue → Bool
  | [], [] => true
  | x :: xs, y :: ys => beq x y && beqList xs ys
  | _, _ => false

def beqFields : List (String × JValue) → List (String × JValue) → Bool
  | [], [] => true
  | (k, v) :: xs, (l, w) :: ys => k == l && beq v w && beqFields xs ys
  | _, _ => false

end

mutual

theorem beq_iff : ∀ a b : JValue, beq a b = true ↔ a = b
  | null, b => by cases b <;> simp [beq]
  | bool x, b => by cases b <;> simp [beq]
  | num x, b => by cases b <;> simp [beq]
  | str x, b => by cases b <;> simp [beq]
  | arr xs, b => by
      cases b <;> simp [beq]
      exact beqList_iff xs _
  | obj fs, b => by
      cases b <;> simp [beq]
      exact beqFields_iff fs _

theorem beqList_iff : ∀ xs ys : List JValue, beqList xs ys = true ↔ xs = ys
  | [], ys => by cases ys <;> simp [beqList]
  | x :: xs, ys => by
      cases ys with
      | nil => simp [beqList]
      | cons y ys =>
          simp [beqList, Bool.and_eq_true, beq_iff x y, beqList_iff xs ys]

theorem beqFields_iff : ∀ xs ys : List (String × JValue),
    beqFields xs ys = true ↔ xs = ys
  | [], ys => by cases ys <;> simp [beqFields]
  | (k, v) :: xs, ys => by
      cases ys with
      | nil => simp [beqFields]
      | cons y ys =>
          obtain ⟨l, w⟩ := y
          simp [beqFields, Bool.and_eq_true, beq_iff v w, beqFields_iff xs ys,
            and_assoc]

end

instance : DecidableEq JValue := fun a b =>
  decidable_of_iff _ (beq_iff a b)

end JValue

/-- One element of an error location path (pydantic `loc`): a mapping key /
field alias, or a list index. -/
inductive PathElem where
  | key (s : String) : PathElem
  | idx (n : Nat) : PathElem
deriving DecidableEq

/-- Error kinds.  Field-level kinds mirror pydantic core error types
(`missing`, `string_type`, ...); the custom kinds mirror the
`PydanticCustomError` identifiers raised by the model validators, carrying
the interpolated index parameter where the source interpolates one;
`valueError` stands for a `ValueError` raised by a custom field validator
(the uniqueness checks). -/
inductive ErrKind where
  | missing : ErrKind
  | modelType : ErrKind
  | stringType : ErrKind
  | numberType : ErrKind
  | intType : ErrKind
  | listType : ErrKind
  | dictType : ErrKind
  | enumMismatch : ErrKind
  | patternMismatch : ErrKind
  | greaterThanEqual : ErrKind
  | tooShort : ErrKind
  | valueError : ErrKind
  | stepMissingTargetType : ErrKind
  | stepExclusiveTargetType : ErrKind
  | parameterInRequiredForOperation (parameterIndex : Nat) : ErrKind
  | invalidParameterTypeForOperation (parameterIndex : Nat) : ErrKind
  | invalidParameterTypeForWorkflow (parameterIndex : Nat) : ErrKind
  | gotoMissingTarget : ErrKind
  | gotoExclusiveTarget : ErrKind
  | gotoRetryMissingTarget : ErrKind
  | gotoRetryExclusiveTarget : ErrKind
  | retryMissingRetryAfter : ErrKind
  | missingContextForExpressionType : ErrKind
  | invalidJsonpathVersion : ErrKind
  | invalidXpathVersion : ErrKind
deriving DecidableEq

/-- A single validation error record: kind plus location path. -/
structure VError where
  kind : ErrKind
  path : List PathElem
deriving DecidableEq

/-- Result of validating one node: the typed value, or the non-empty list of
errors found. -/
abbrev V (α : Type) := Except (List VError) α

/-- Push a path element onto every error of a list (errors of a child node
are located under the child's key/index in the parent). -/
def pushPath (p : PathElem) (es : List VError) : List VError :=
  es.map fun e => ⟨e.kind, p :: e.path⟩

/-- Relocate the errors of a child validation result under a path element. -/
def under (p : PathElem) : V α → V α
  | .ok a => .ok a
  | .error es => .error (pushPath p es)

/-- Error-accumulating application: both sides are evaluated and their error
lists concatenated, mirroring how pydantic collects the errors of every
field of a model rather than stopping at the first. -/
def vap : V (α → β) → V α → V β
  | .ok f, .ok a => .ok (f a)
  | .ok _, .error es => .error es
  | .error es, .ok _ => .error es
  | .error es, .error es2 => .error (es ++ es2)

theorem vap_eq_ok {α β : Type} {f : V (α → β)} {x : V α} {b : β} :
    vap f x = .ok b ↔ ∃ g a, f = .ok g ∧ x = .ok a ∧ g a = b := by
  cases f <;> cases x <;> simp [vap]

theorem under_eq_ok {α : Type} {p : PathElem} {x : V α} {a : α} :
    under p x = .ok a ↔ x = .ok a := by
  cases x <;> simp [under]

/-- If the right argument of `vap` failed, the application fails and keeps
every error of the right argument. -/
theorem mem_vap_right {α β : Type} {f : V (α → β)} {x : V α} {es : List VError}
    {e : VError} (hx : x = .error es) (he : e ∈ es) :
    ∃ es2, vap f x = .error es2 ∧ e ∈ es2 := by
  cases f <;> subst hx <;> simp [vap] <;> simp [he]

/-- If the left argument of `vap` failed, the application fails and keeps
every error of the left argument. -/
theorem mem_vap_left {α β : Type} {f : V (α → β)} {x : V α} {es : List VError}
    {e : VError} (hf : f = .error es) (he : e ∈ es) :
    ∃ es2, vap f x = .error es2 ∧ e ∈ es2 := by
  cases x <;> subst hf <;> simp [vap] <;> simp [he]

/-- Duplicate scan of `validate_unique_items` (src lines 35-50): walk the
list keeping a `seen` set; every item already seen is appended to the
duplicates.  The item itself is the comparison key, standing for the
`model_dump_json` serialization used by the source (injective on the typed
values). -/
def findDuplicates {α : Type} [DecidableEq α] : List α → List α → List α
  | _, [] => []
  | seen, x :: xs =>
      if x ∈ seen then x :: findDuplicates seen xs
      else findDuplicates (x :: seen) xs

theorem mem_findDuplicates {α : Type} [DecidableEq α] (x : α) :
    ∀ (l seen : List α),
      x ∈ findDuplicates seen l ↔ (x ∈ seen ∧ x ∈ l) ∨ 2 ≤ l.count x := by
  intro l
  induction l with
  | nil => intro seen; simp [findDuplicates]
  | cons y l ih =>
    intro seen
    by_cases hy : y ∈ seen <;> by_cases hxy : x = y
    · subst hxy
      simp only [findDuplicates, if_pos hy]
      exact iff_of_true (List.mem_cons_self _ _)
        (Or.inl ⟨hy, List.mem_cons_self _ _⟩)
    · simp only [findDuplicates, if_pos hy, List.count_cons_of_ne hxy,
        List.mem_cons, ih seen]
      tauto
    · subst hxy
      simp only [findDuplicates, if_neg hy, List.count_cons_self,
        ih (x :: seen), List.mem_cons]
      constructor
      · rintro (⟨h1, h2⟩ | h2)
        · have := List.count_pos_iff.2 h2
          right; omega
        · right; omega
      · rintro (⟨h1, h2⟩ | h2)
        · exact absurd h1 hy
        · left
          exact ⟨by simp, List.count_pos_iff.1 (by omega)⟩
    · simp only [findDuplicates, if_neg hy, List.count_cons_of_ne hxy,
        ih (y :: seen), List.mem_cons]
      tauto

/-- Distinct duplicates reported in the uniqueness error message
(`set(duplicates_found)` of the source, line 53). -/
def reportedDuplicates {α : Type} [DecidableEq α] (l : List α) : List α :=
  (findDuplicates [] l).dedup

/-! ### String predicates of the field-level validators -/

/-- Characters admitted by the `SourceDescription.name` pattern
`r"^[A-Za-z0-9_\\-]+$"` (src line 82).  In that raw string, `\\` is an
escaped backslash inside the character class, so the class is: ASCII
letters, digits, underscore, backslash, hyphen. -/
def isNamePatternChar (c : Char) : Bool :=
  (('A' ≤ c ∧ c ≤ 'Z') : Bool) || (('a' ≤ c ∧ c ≤ 'z') : Bool)
    || (('0' ≤ c ∧ c ≤ '9') : Bool) || c = '_' || c = '\\' || c = '-'

/-- Whether a string matches the anchored name pattern: non-empty and all
characters in the class. -/
def namePatternMatch (s : String) : Bool :=
  !s.data.isEmpty && s.data.all isNamePatternChar

/-- Whitespace characters matched by Python's `re.search(r"\s", v)`
(src line 90): ASCII whitespace plus the Unicode whitespace code points. -/
def isPyWhitespace (c : Char) : Bool :=
  c = ' ' || c = '\t' || c = '\n' || c = '\r' || c.val = 0x0b || c.val = 0x0c
    || c.val = 0x1c || c.val = 0x1d || c.val = 0x1e || c.val = 0x1f
    || c.val = 0x85 || c.val = 0xa0 || c.val = 0x1680
    || ((0x2000 ≤ c.val ∧ c.val ≤ 0x200a) : Bool)
    || c.val = 0x2028 || c.val = 0x2029 || c.val = 0x202f || c.val = 0x205f
    || c.val = 0x3000

def hasWhitespace (s : String) : Bool :=
  s.data.any isPyWhitespace

/-- Tail of the Arazzo version pattern after the digits: either the end of
the string, or a hyphen followed by at least one non-newline character
(`(-.+)?$` of `r"^1\.0\.\d+(-.+)?$"`, src line 575). -/
def versionSuffixMatch : List Char → Bool
  | [] => true
  | '-' :: r => !r.isEmpty && r.all (fun c => c ≠ '\n')
  | _ => false

/-- Consume the remaining digits of `\d+`, then the optional suffix. -/
def versionDigitsMatch : List Char → Bool
  | [] => true
  | c :: r => if c.isDigit then versionDigitsMatch r else versionSuffixMatch (c :: r)

/-- The anchored document-version pattern `^1\.0\.\d+(-.+)?$`. -/
def arazzoVersionMatch (s : String) : Bool :=
  match s.data with
  | '1' :: '.' :: '0' :: '.' :: c :: r => c.isDigit && versionDigitsMatch r
  | _ => false

/-! ### Enumerations -/

/-- `SourceDescription.SourceType`. -/
inductive SourceType where
  | arazzo : SourceType
  | openapi : SourceType
deriving DecidableEq

def SourceType.ofString : String → Option SourceType
  | "arazzo" => some .arazzo
  | "openapi" => some .openapi
  | _ => none

/-- `Parameter.InLocation`. -/
inductive InLocation where
  | path : InLocation
  | query : InLocation
  | header : InLocation
  | cookie : InLocation
deriving DecidableEq

def InLocation.ofString : String → Option InLocation
  | "path" => some .path
  | "query" => some .query
  | "header" => some .header
  | "cookie" => some .cookie
  | _ => none

/-- `CriterionExpressionType.ExpressionType`. -/
inductive ExpressionType where
  | jsonpath : ExpressionType
  | xpath : ExpressionType
deriving DecidableEq

def ExpressionType.ofString : String → Option ExpressionType
  | "jsonpath" => some .jsonpath
  | "xpath" => some .xpath
  | _ => none

/-- `Criterion.ConditionType`. -/
inductive ConditionType where
  | simple : ConditionType
  | regex : ConditionType
  | jsonpath : ConditionType
  | xpath : ConditionType
deriving DecidableEq

def ConditionType.ofString : String → Option ConditionType
  | "simple" => some .simple
  | "regex" => some .regex
  | "jsonpath" => some .jsonpath
  | "xpath" => some .xpath
  | _ => none

/-- `SuccessAction.ActionType`. -/
inductive SuccessActionType where
  | end_ : SuccessActionType
  | goto : SuccessActionType
deriving DecidableEq

def SuccessActionType.ofString : String → Option SuccessActionType
  | "end" => some .end_
  | "goto" => some .goto
  | _ => none

/-- `FailureAction.ActionType`. -/
inductive FailureActionType where
  | end_ : FailureActionType
  | goto : FailureActionType
  | retry : FailureActionType
deriving DecidableEq

def FailureActionType.ofString : String → Option FailureActionType
  | "end" => some .end_
  | "goto" => some .goto
  | "retry" => some .retry
  | _ => none

/-- The single recognized jsonpath version token
(`JsonPathVersion.DRAFT_GOESSNER`). -/
def draftGoessner : String := "draft-goessner-dispatch-jsonpath-00"

/-- The three recognized xpath version tokens (`XPathVersion`). -/
def xpathVersions : List String := ["xpath-10", "xpath-20", "xpath-30"]

/-! ### Typed document model

Each record mirrors one pydantic model of the source, declared fields in
source order, plus the `extra` capture of the `extra='allow'` model config
(every raw key that matches no declared alias or field name). -/

structure Info where
  title : String
  summary : Option String
  description : Option String
  version : String
  extra : List (String × JValue)
deriving DecidableEq

structure SourceDescription where
  name : String
  url : String
  type : Option SourceType
  extra : List (String × JValue)
deriving DecidableEq

/-- `Schema` is a `RootModel` wrapping an uninterpreted mapping. -/
structure Schema where
  root : List (String × JValue)
deriving DecidableEq

structure ReusableObject where
  reference : String
  value : Option JValue
  extra : List (String × JValue)
deriving DecidableEq

structure Parameter where
  name : String
  in_ : Option InLocation
  value : JValue
  extra : List (String × JValue)
deriving DecidableEq

structure PayloadReplacement where
  target : String
  value : String
  extra : List (String × JValue)
deriving DecidableEq

structure RequestBody where
  content_type : Option String
  payload : Option JValue
  replacements : Option (List PayloadReplacement)
  extra : List (String × JValue)
deriving DecidableEq

structure CriterionExpressionType where
  type : ExpressionType
  version : String
  extra : List (String × JValue)
deriving DecidableEq

/-- `Criterion.type`: a plain condition tag or a
`CriterionExpressionType` object. -/
inductive CriterionTypeUnion where
  | tag (t : ConditionType) : CriterionTypeUnion
  | expr (e : CriterionExpressionType) : CriterionTypeUnion
deriving DecidableEq

structure Criterion where
  context : Option String
  condition : String
  type : CriterionTypeUnion
  extra : List (String × JValue)
deriving DecidableEq

structure SuccessAction where
  name : String
  type : SuccessActionType
  workflow_id : Option String
  step_id : Option String
  criteria : Option (List Criterion)
  extra : List (String × JValue)
deriving DecidableEq

structure FailureAction where
  name : String
  type : FailureActionType
  workflow_id : Option String
  step_id : Option String
  retry_after : Option Rat
  retry_limit : Option Int
  criteria : Option (List Criterion)
  extra : List (String × JValue)
deriving DecidableEq

/-- `Union[Parameter, ReusableObject]`. -/
inductive ParamOrReusable where
  | param (p : Parameter) : ParamOrReusable
  | reusable (r : ReusableObject) : ParamOrReusable
deriving DecidableEq

/-- `Union[SuccessAction, ReusableObject]`. -/
inductive SuccessOrReusable where
  | action (a : SuccessAction) : SuccessOrReusable
  | reusable (r : ReusableObject) : SuccessOrReusable
deriving DecidableEq

/-- `Union[FailureAction, ReusableObject]`. -/
inductive FailureOrReusable where
  | action (a : FailureAction) : FailureOrReusable
  | reusable (r : ReusableObject) : FailureOrReusable
deriving DecidableEq

structure Step where
  step_id : String
  description : Option String
  operation_id : Option String
  operation_path : Option String
  workflow_id : Option String
  parameters : Option (List ParamOrReusable)
  request_body : Option RequestBody
  success_criteria : Option (List Criterion)
  on_success : Option (List SuccessOrReusable)
  on_failure : Option (List FailureOrReusable)
  outputs : Option (List (String × String))
  extra : List (String × JValue)
deriving DecidableEq

structure Workflow where
  workflow_id : String
  summary : Option String
  description : Option String
  inputs : Option Schema
  depends_on : Option (List String)
  steps : List Step
  success_actions : Option (List SuccessOrReusable)
  failure_actions : Option (List FailureOrReusable)
  outputs : Option (List (String × String))
  parameters : Option (List ParamOrReusable)
  extra : List (String × JValue)
deriving DecidableEq

structure Components where
  inputs : Option (List (String × Schema))
  parameters : Option (List (String × Parameter))
  success_actions : Option (List (String × SuccessAction))
  failure_actions : Option (List (String × FailureAction))
  extra : List (String × JValue)
deriving DecidableEq

structure ArazzoSpecification where
  arazzo : String
  info : Info
  source_descriptions : List SourceDescription
  workflows : List Workflow
  components : Option Components
  extra : List (String × JValue)
deriving DecidableEq

/-! ### Field-level parsing helpers

`populate_by_name=True` with the camelCase alias generator: a field is read
from the wire alias first, then from the python field name. -/

def lookupField (fs : List (String × JValue)) (al nm : String) : Option JValue :=
  match fs.lookup al with
  | some v => some v
  | none => fs.lookup nm

/-- Keys not consumed by any declared alias or field name are preserved
verbatim by `extra='allow'`. -/
def extrasOf (fs : List (String × JValue)) (declared : List String) :
    List (String × JValue) :=
  fs.filter fun kv => !(declared.contains kv.1)

def reqStrF (fs : List (String × JValue)) (al nm : String) : V String :=
  match lookupField fs al nm with
  | none => .error [⟨.missing, [.key al]⟩]
  | some (.str s) => .ok s
  | some _ => .error [⟨.stringType, [.key al]⟩]

def optStrF (fs : List (String × JValue)) (al nm : String) : V (Option String) :=
  match lookupField fs al nm with
  | none => .ok none
  | some .null => .ok none
  | some (.str s) => .ok (some s)
  | some _ => .error [⟨.stringType, [.key al]⟩]

def reqEnumF {ε : Type} (fs : List (String × JValue)) (al nm : String)
    (p : String → Option ε) : V ε :=
  match lookupField fs al nm with
  | none => .error [⟨.missing, [.key al]⟩]
  | some (.str s) =>
      (match p s with
       | some e => .ok e
       | none => .error [⟨.enumMismatch, [.key al]⟩])
  | some _ => .error [⟨.enumMismatch, [.key al]⟩]

def optEnumF {ε : Type} (fs : List (String × JValue)) (al nm : String)
    (p : String → Option ε) : V (Option ε) :=
  match lookupField fs al nm with
  | none => .ok none
  | some .null => .ok none
  | some (.str s) =>
      (match p s with
       | some e => .ok (some e)
       | none => .error [⟨.enumMismatch, [.key al]⟩])
  | some _ => .error [⟨.enumMismatch, [.key al]⟩]

/-- Required `Any` field: any decoded value is accepted. -/
def reqAnyF (fs : List (String × JValue)) (al nm : String) : V JValue :=
  match lookupField fs al nm with
  | none => .error [⟨.missing, [.key al]⟩]
  | some v => .ok v

/-- `Optional[Any]` field: absent and explicit null both become `None`. -/
def optAnyF (fs : List (String × JValue)) (al nm : String) : V (Option JValue) :=
  .ok (match lookupField fs al nm with
       | none => none
       | some .null => none
       | some v => some v)

/-- `Optional[float]` with `ge` bound (`retry_after`, src lines 310-312). -/
def optFloatGeF (fs : List (String × JValue)) (al nm : String) (lo : Rat) :
    V (Option Rat) :=
  match lookupField fs al nm with
  | none => .ok none
  | some .null => .ok none
  | some (.num q) =>
      if lo ≤ q then .ok (some q) else .error [⟨.greaterThanEqual, [.key al]⟩]
  | some _ => .error [⟨.numberType, [.key al]⟩]

/-- `Optional[int]` with `ge` bound (`retry_limit`, src lines 313-315). -/
def optIntGeF (fs : List (String × JValue)) (al nm : String) (lo : Int) :
    V (Option Int) :=
  match lookupField fs al nm with
  | none => .ok none
  | some .null => .ok none
  | some (.num q) =>
      if q.den = 1 then
        if lo ≤ q.num then .ok (some q.num)
        else .error [⟨.greaterThanEqual, [.key al]⟩]
      else .error [⟨.intType, [.key al]⟩]
  | some _ => .error [⟨.intType, [.key al]⟩]

/-- Validate every entry of a `Dict[str, str]`. -/
def strMapEntries : List (String × JValue) → V (List (String × String))
  | [] => .ok []
  | (k, v) :: rest =>
      let hd : V (String × String) :=
        match v with
        | .str s => .ok (k, s)
        | _ => .error [⟨.stringType, [.key k]⟩]
      vap (vap (.ok List.cons) hd) (strMapEntries rest)

def optStrMapF (fs : List (String × JValue)) (al nm : String) :
    V (Option (List (String × String))) :=
  match lookupField fs al nm with
  | none => .ok none
  | some .null => .ok none
  | some (.obj gs) => (under (.key al) (strMapEntries gs)).map some
  | some _ => .error [⟨.dictType, [.key al]⟩]

/-- Validate every value of a `Dict[str, Model]` (Components pools). -/
def modelMapEntries {α : Type} (f : JValue → V α) :
    List (String × JValue) → V (List (String × α))
  | [] => .ok []
  | (k, v) :: rest =>
      vap (vap (.ok List.cons) ((under (.key k) (f v)).map fun a => (k, a)))
        (modelMapEntries f rest)

def optModelMapF {α : Type} (f : JValue → V α) (fs : List (String × JValue))
    (al nm : String) : V (Option (List (String × α))) :=
  match lookupField fs al nm with
  | none => .ok none
  | some .null => .ok none
  | some (.obj gs) => (under (.key al) (modelMapEntries f gs)).map some
  | some _ => .error [⟨.dictType, [.key al]⟩]

/-- Required nested model field. -/
def reqModelF {α : Type} (f : JValue → V α) (fs : List (String × JValue))
    (al nm : String) : V α :=
  match lookupField fs al nm with
  | none => .error [⟨.missing, [.key al]⟩]
  | some v => under (.key al) (f v)

/-- Optional nested model field. -/
def optModelF {α : Type} (f : JValue → V α) (fs : List (String × JValue))
    (al nm : String) : V (Option α) :=
  match lookupField fs al nm with
  | none => .ok none
  | some .null => .ok none
  | some v => (under (.key al) (f v)).map some

/-- Validate the elements of a list value, locating the errors of element
`i` under index `i`; errors of distinct elements accumulate. -/
def vElems {α : Type} (f : JValue → V α) : Nat → List JValue → V (List α)
  | _, [] => .ok []
  | i, x :: xs =>
      vap (vap (.ok List.cons) (under (.idx i) (f x))) (vElems f (i + 1) xs)

/-- Required list field with a `min_length` constraint. -/
def reqListF {α : Type} (f : JValue → V α) (fs : List (String × JValue))
    (al nm : String) (minLen : Nat) : V (List α) :=
  match lookupField fs al nm with
  | none => .error [⟨.missing, [.key al]⟩]
  | some (.arr xs) =>
      if xs.length < minLen then .error [⟨.tooShort, [.key al]⟩]
      else under (.key al) (vElems f 0 xs)
  | some _ => .error [⟨.listType, [.key al]⟩]

/-- Optional list field with a `min_length` constraint (0 when the source
declares none). -/
def optListF {α : Type} (f : JValue → V α) (fs : List (String × JValue))
    (al nm : String) (minLen : Nat) : V (Option (List α)) :=
  match lookupField fs al nm with
  | none => .ok none
  | some .null => .ok none
  | some (.arr xs) =>
      if xs.length < minLen then .error [⟨.tooShort, [.key al]⟩]
      else (under (.key al) (vElems f 0 xs)).map some
  | some _ => .error [⟨.listType, [.key al]⟩]

/-! ### Uniqueness field validators -/

/-- `validate_unique_items` succeeds iff the duplicate scan found nothing. -/
def uniqueOk {α : Type} [DecidableEq α] (l : List α) : Bool :=
  (findDuplicates [] l).isEmpty

/-- A field validator applying `validate_unique_items` to a parsed list
(runs only when the field itself parsed, as pydantic after-validators do). -/
def withUnique {α : Type} [DecidableEq α] (al : String) (v : V (List α)) :
    V (List α) :=
  v.bind fun l =>
    if uniqueOk l then .ok l else .error [⟨.valueError, [.key al]⟩]

def withUniqueOpt {α : Type} [DecidableEq α] (al : String)
    (v : V (Option (List α))) : V (Option (List α)) :=
  v.bind fun o =>
    match o with
    | none => .ok none
    | some l =>
        if uniqueOk l then .ok (some l) else .error [⟨.valueError, [.key al]⟩]

/-- Identifier-keyed uniqueness (`len(ids) != len(set(ids))` in the source):
the number of distinct identifiers must equal the list length. -/
def idsUnique (ids : List String) : Bool :=
  ids.dedup.length = ids.length

/-- Field validator for the identifier-keyed unique lists (steps by
`step_id`, workflows by `workflow_id`, source descriptions by `name`). -/
def withUniqueBy {α : Type} (key : α → String) (al : String)
    (v : V (List α)) : V (List α) :=
  v.bind fun l =>
    if idsUnique (l.map key) then .ok l
    else .error [⟨.valueError, [.key al]⟩]

/-! ### Per-model validators -/

def infoDeclared : List String := ["title", "summary", "description", "version"]

def infoFields (fs : List (String × JValue)) : V Info :=
  vap (vap (vap (vap
    (.ok fun t s d v => Info.mk t s d v (extrasOf fs infoDeclared))
    (reqStrF fs "title" "title"))
    (optStrF fs "summary" "summary"))
    (optStrF fs "description" "description"))
    (reqStrF fs "version" "version")

def validateInfo : JValue → V Info
  | .obj fs => infoFields fs
  | _ => .error [⟨.modelType, []⟩]

def sourceDescriptionDeclared : List String := ["name", "url", "type"]

/-- `name` field: string with the pattern of src line 82. -/
def sourceNameField (fs : List (String × JValue)) : V String :=
  (reqStrF fs "name" "name").bind fun s =>
    if namePatternMatch s then .ok s
    else .error [⟨.patternMismatch, [.key "name"]⟩]

/-- `url` field: string, then the `validate_uri_reference` field validator
(no whitespace, src lines 86-92). -/
def sourceUrlField (fs : List (String × JValue)) : V String :=
  (reqStrF fs "url" "url").bind fun s =>
    if hasWhitespace s then .error [⟨.valueError, [.key "url"]⟩]
    else .ok s

def sourceDescriptionFields (fs : List (String × JValue)) : V SourceDescription :=
  vap (vap (vap
    (.ok fun n u t => SourceDescription.mk n u t (extrasOf fs sourceDescriptionDeclared))
    (sourceNameField fs))
    (sourceUrlField fs))
    (optEnumF fs "type" "type" SourceType.ofString)

def validateSourceDescription : JValue → V SourceDescription
  | .obj fs => sourceDescriptionFields fs
  | _ => .error [⟨.modelType, []⟩]

def validateSchema : JValue → V Schema
  | .obj fs => .ok ⟨fs⟩
  | _ => .error [⟨.dictType, []⟩]

def reusableObjectDeclared : List String := ["reference", "value"]

def reusableObjectFields (fs : List (String × JValue)) : V ReusableObject :=
  vap (vap
    (.ok fun r v => ReusableObject.mk r v (extrasOf fs reusableObjectDeclared))
    (reqStrF fs "reference" "reference"))
    (optAnyF fs "value" "value")

def validateReusableObject : JValue → V ReusableObject
  | .obj fs => reusableObjectFields fs
  | _ => .error [⟨.modelType, []⟩]

def parameterDeclared : List String := ["name", "in", "in_", "value"]

def parameterFields (fs : List (String × JValue)) : V Parameter :=
  vap (vap (vap
    (.ok fun n i v => Parameter.mk n i v (extrasOf fs parameterDeclared))
    (reqStrF fs "name" "name"))
    (optEnumF fs "in" "in_" InLocation.ofString))
    (reqAnyF fs "value" "value")

def validateParameter : JValue → V Parameter
  | .obj fs => parameterFields fs
  | _ => .error [⟨.modelType, []⟩]

def payloadReplacementDeclared : List String := ["target", "value"]

def payloadReplacementFields (fs : List (String × JValue)) : V PayloadReplacement :=
  vap (vap
    (.ok fun t v => PayloadReplacement.mk t v (extrasOf fs payloadReplacementDeclared))
    (reqStrF fs "target" "target"))
    (reqStrF fs "value" "value")

def validatePayloadReplacement : JValue → V PayloadReplacement
  | .obj fs => payloadReplacementFields fs
  | _ => .error [⟨.modelType, []⟩]

def requestBodyDeclared : List String :=
  ["contentType", "content_type", "payload", "replacements"]

def requestBodyFields (fs : List (String × JValue)) : V RequestBody :=
  vap (vap (vap
    (.ok fun c p r => RequestBody.mk c p r (extrasOf fs requestBodyDeclared))
    (optStrF fs "contentType" "content_type"))
    (optAnyF fs "payload" "payload"))
    (withUniqueOpt "replacements"
      (optListF validatePayloadReplacement fs "replacements" "replacements" 0))

def validateRequestBody : JValue → V RequestBody
  | .obj fs => requestBodyFields fs
  | _ => .error [⟨.modelType, []⟩]

def criterionExpressionTypeDeclared : List String := ["type", "version"]

def criterionExpressionTypeFields (fs : List (String × JValue)) :
    V CriterionExpressionType :=
  vap (vap
    (.ok fun t v =>
      CriterionExpressionType.mk t v (extrasOf fs criterionExpressionTypeDeclared))
    (reqEnumF fs "type" "type" ExpressionType.ofString))
    (reqStrF fs "version" "version")

/-- `CriterionExpressionType.check_conditional_version` (src lines 183-199). -/
def criterionExpressionTypeAfter (e : CriterionExpressionType) :
    V CriterionExpressionType :=
  if e.type = .jsonpath ∧ e.version ≠ draftGoessner then
    .error [⟨.invalidJsonpathVersion, []⟩]
  else if e.type = .xpath ∧ e.version ∉ xpathVersions then
    .error [⟨.invalidXpathVersion, []⟩]
  else .ok e

def validateCriterionExpressionType : JValue → V CriterionExpressionType
  | .obj fs => (criterionExpressionTypeFields fs).bind criterionExpressionTypeAfter
  | _ => .error [⟨.modelType, []⟩]

def criterionDeclared : List String := ["context", "condition", "type"]

/-- `Criterion.type`: a string resolves against the `ConditionType` enum, a
mapping as a `CriterionExpressionType` object; absent defaults to
`simple`. -/
def criterionTypeField (fs : List (String × JValue)) : V CriterionTypeUnion :=
  match lookupField fs "type" "type" with
  | none => .ok (.tag .simple)
  | some (.str s) =>
      (match ConditionType.ofString s with
       | some t => .ok (.tag t)
       | none => .error [⟨.enumMismatch, [.key "type"]⟩])
  | some (.obj gs) =>
      (under (.key "type") (validateCriterionExpressionType (.obj gs))).map .expr
  | some _ => .error [⟨.modelType, [.key "type"]⟩]

def criterionFields (fs : List (String × JValue)) : V Criterion :=
  vap (vap (vap
    (.ok fun c cond t => Criterion.mk c cond t (extrasOf fs criterionDeclared))
    (optStrF fs "context" "context"))
    (reqStrF fs "condition" "condition"))
    (criterionTypeField fs)

/-- Whether a criterion's resolved type is an expression type: the plain
tag `jsonpath`/`xpath`, or any `CriterionExpressionType` object. -/
def criterionResolvedExpression : CriterionTypeUnion → Bool
  | .tag t => t = ConditionType.jsonpath || t = ConditionType.xpath
  | .expr _ => true

/-- `Criterion.check_dependent_required` (src lines 228-247). -/
def criterionAfter (c : Criterion) : V Criterion :=
  if criterionResolvedExpression c.type ∧ c.context = none then
    .error [⟨.missingContextForExpressionType, []⟩]
  else .ok c

def validateCriterion : JValue → V Criterion
  | .obj fs => (criterionFields fs).bind criterionAfter
  | _ => .error [⟨.modelType, []⟩]

/-- Python string truthiness of an optional string: `None` and the empty
string are both falsy. -/
def pyTruthy : Option String → Bool
  | none => false
  | some s => s != ""

def successActionDeclared : List String :=
  ["name", "type", "workflowId", "workflow_id", "stepId", "step_id", "criteria"]

def successActionFields (fs : List (String × JValue)) : V SuccessAction :=
  vap (vap (vap (vap (vap
    (.ok fun n t w s c => SuccessAction.mk n t w s c (extrasOf fs successActionDeclared))
    (reqStrF fs "name" "name"))
    (reqEnumF fs "type" "type" SuccessActionType.ofString))
    (optStrF fs "workflowId" "workflow_id"))
    (optStrF fs "stepId" "step_id"))
    (withUniqueOpt "criteria" (optListF validateCriterion fs "criteria" "criteria" 1))

/-- `SuccessAction.check_conditional_goto` (src lines 276-291): target
presence is tested by string truthiness. -/
def successActionAfter (a : SuccessAction) : V SuccessAction :=
  if a.type = .goto then
    if !(pyTruthy a.workflow_id || pyTruthy a.step_id) then
      .error [⟨.gotoMissingTarget, []⟩]
    else if pyTruthy a.workflow_id && pyTruthy a.step_id then
      .error [⟨.gotoExclusiveTarget, []⟩]
    else .ok a
  else .ok a

def validateSuccessAction : JValue → V SuccessAction
  | .obj fs => (successActionFields fs).bind successActionAfter
  | _ => .error [⟨.modelType, []⟩]

def failureActionDeclared : List String :=
  ["name", "type", "workflowId", "workflow_id", "stepId", "step_id",
   "retryAfter", "retry_after", "retryLimit", "retry_limit", "criteria"]

def failureActionFields (fs : List (String × JValue)) : V FailureAction :=
  vap (vap (vap (vap (vap (vap (vap
    (.ok fun n t w s ra rl c =>
      FailureAction.mk n t w s ra rl c (extrasOf fs failureActionDeclared))
    (reqStrF fs "name" "name"))
    (reqEnumF fs "type" "type" FailureActionType.ofString))
    (optStrF fs "workflowId" "workflow_id"))
    (optStrF fs "stepId" "step_id"))
    (optFloatGeF fs "retryAfter" "retry_after" 0))
    (optIntGeF fs "retryLimit" "retry_limit" 0))
    (withUniqueOpt "criteria" (optListF validateCriterion fs "criteria" "criteria" 0))

/-- `FailureAction.check_conditional_goto_retry` (src lines 327-349): the
goto/retry target checks run first (raising stops the validator), then the
retry/retryAfter requirement. -/
def failureActionAfter (a : FailureAction) : V FailureAction :=
  if a.type = .goto ∨ a.type = .retry then
    if !(pyTruthy a.workflow_id || pyTruthy a.step_id) then
      .error [⟨.gotoRetryMissingTarget, []⟩]
    else if pyTruthy a.workflow_id && pyTruthy a.step_id then
      .error [⟨.gotoRetryExclusiveTarget, []⟩]
    else if a.type = .retry ∧ a.retry_after = none then
      .error [⟨.retryMissingRetryAfter, []⟩]
    else .ok a
  else .ok a

def validateFailureAction : JValue → V FailureAction
  | .obj fs => (failureActionFields fs).bind failureActionAfter
  | _ => .error [⟨.modelType, []⟩]

/-- Smart-union parse of `Union[Parameter, ReusableObject]`: the value is
tried as a `Parameter` first, then as a `ReusableObject`. -/
def validateParamOrReusable (v : JValue) : V ParamOrReusable :=
  match validateParameter v with
  | .ok p => .ok (.param p)
  | .error es1 =>
      match validateReusableObject v with
      | .ok r => .ok (.reusable r)
      | .error es2 =>
          .error (pushPath (.key "Parameter") es1
            ++ pushPath (.key "ReusableObject") es2)

def validateSuccessOrReusable (v : JValue) : V SuccessOrReusable :=
  match validateSuccessAction v with
  | .ok a => .ok (.action a)
  | .error es1 =>
      match validateReusableObject v with
      | .ok r => .ok (.reusable r)
      | .error es2 =>
          .error (pushPath (.key "SuccessAction") es1
            ++ pushPath (.key "ReusableObject") es2)

def validateFailureOrReusable (v : JValue) : V FailureOrReusable :=
  match validateFailureAction v with
  | .ok a => .ok (.action a)
  | .error es1 =>
      match validateReusableObject v with
      | .ok r => .ok (.reusable r)
      | .error es2 =>
          .error (pushPath (.key "FailureAction") es1
            ++ pushPath (.key "ReusableObject") es2)

def stepDeclared : List String :=
  ["stepId", "step_id", "description", "operationId", "operation_id",
   "operationPath", "operation_path", "workflowId", "workflow_id",
   "parameters", "requestBody", "request_body", "successCriteria",
   "success_criteria", "onSuccess", "on_success", "onFailure", "on_failure",
   "outputs"]

def stepFields (fs : List (String × JValue)) : V Step :=
  vap (vap (vap (vap (vap (vap (vap (vap (vap (vap (vap
    (.ok fun sid d oid op wid ps rb sc osu ofa out =>
      Step.mk sid d oid op wid ps rb sc osu ofa out (extrasOf fs stepDeclared))
    (reqStrF fs "stepId" "step_id"))
    (optStrF fs "description" "description"))
    (optStrF fs "operationId" "operation_id"))
    (optStrF fs "operationPath" "operation_path"))
    (optStrF fs "workflowId" "workflow_id"))
    (withUniqueOpt "parameters"
      (optListF validateParamOrReusable fs "parameters" "parameters" 0)))
    (optModelF validateRequestBody fs "requestBody" "request_body"))
    (withUniqueOpt "successCriteria"
      (optListF validateCriterion fs "successCriteria" "success_criteria" 1)))
    (withUniqueOpt "onSuccess"
      (optListF validateSuccessOrReusable fs "onSuccess" "on_success" 0)))
    (withUniqueOpt "onFailure"
      (optListF validateFailureOrReusable fs "onFailure" "on_failure" 0)))
    (optStrMapF fs "outputs" "outputs")

/-- The operation-targeted parameter walk of
`Step.check_conditional_step_target` (src lines 445-458): the first plain
`Parameter` lacking `in` raises, naming its index.  The
`invalid_parameter_type_for_operation` arm is unreachable here because the
union parse produced one of the two admissible variants. -/
def checkParamsOperation : Nat → List ParamOrReusable → V Unit
  | _, [] => .ok ()
  | i, .param p :: rest =>
      if p.in_ = none then .error [⟨.parameterInRequiredForOperation i, []⟩]
      else checkParamsOperation (i + 1) rest
  | i, .reusable _ :: rest => checkParamsOperation (i + 1) rest

/-- The workflow-targeted parameter walk (src lines 459-467): every variant
the union parse can produce is admissible, so the walk always succeeds. -/
def checkParamsWorkflow : Nat → List ParamOrReusable → V Unit
  | _, [] => .ok ()
  | i, _ :: rest => checkParamsWorkflow (i + 1) rest

/-- `Step.check_conditional_step_target` (src lines 422-468).  Target
presence for the one-of check is `is not None`; the parameter checks are
guarded by `if self.parameters:` (list truthiness) and select the branch by
string truthiness of the target fields. -/
def stepAfter (s : Step) : V Step :=
  let presentTargets :=
    [s.operation_id, s.operation_path, s.workflow_id].filterMap id
  if presentTargets.isEmpty then
    .error [⟨.stepMissingTargetType, []⟩]
  else if 1 < presentTargets.length then
    .error [⟨.stepExclusiveTargetType, []⟩]
  else
    match s.parameters with
    | some ps =>
        if ps.isEmpty then .ok s
        else if pyTruthy s.operation_id || pyTruthy s.operation_path then
          (checkParamsOperation 0 ps).map fun _ => s
        else if pyTruthy s.workflow_id then
          (checkParamsWorkflow 0 ps).map fun _ => s
        else .ok s
    | none => .ok s

def validateStep : JValue → V Step
  | .obj fs => (stepFields fs).bind stepAfter
  | _ => .error [⟨.modelType, []⟩]

/-- A bare string element of a `List[str]` field. -/
def validateStrElem : JValue → V String
  | .str s => .ok s
  | _ => .error [⟨.stringType, []⟩]

def workflowDeclared : List String :=
  ["workflowId", "workflow_id", "summary", "description", "inputs",
   "dependsOn", "depends_on", "steps", "successActions", "success_actions",
   "failureActions", "failure_actions", "outputs", "parameters"]

def workflowFields (fs : List (String × JValue)) : V Workflow :=
  vap (vap (vap (vap (vap (vap (vap (vap (vap (vap
    (.ok fun wid su d inp dep st sa fa out ps =>
      Workflow.mk wid su d inp dep st sa fa out ps (extrasOf fs workflowDeclared))
    (reqStrF fs "workflowId" "workflow_id"))
    (optStrF fs "summary" "summary"))
    (optStrF fs "description" "description"))
    (optModelF validateSchema fs "inputs" "inputs"))
    (withUniqueOpt "dependsOn"
      (optListF validateStrElem fs "dependsOn" "depends_on" 0)))
    (withUniqueBy Step.step_id "steps" (reqListF validateStep fs "steps" "steps" 1)))
    (withUniqueOpt "successActions"
      (optListF validateSuccessOrReusable fs "successActions" "success_actions" 0)))
    (withUniqueOpt "failureActions"
      (optListF validateFailureOrReusable fs "failureActions" "failure_actions" 0)))
    (optStrMapF fs "outputs" "outputs"))
    (withUniqueOpt "parameters"
      (optListF validateParamOrReusable fs "parameters" "parameters" 0))

def validateWorkflow : JValue → V Workflow
  | .obj fs => workflowFields fs
  | _ => .error [⟨.modelType, []⟩]

def componentsDeclared : List String :=
  ["inputs", "parameters", "successActions", "success_actions",
   "failureActions", "failure_actions"]

def componentsFields (fs : List (String × JValue)) : V Components :=
  vap (vap (vap (vap
    (.ok fun i p sa fa => Components.mk i p sa fa (extrasOf fs componentsDeclared))
    (optModelMapF validateSchema fs "inputs" "inputs"))
    (optModelMapF validateParameter fs "parameters" "parameters"))
    (optModelMapF validateSuccessAction fs "successActions" "success_actions"))
    (optModelMapF validateFailureAction fs "failureActions" "failure_actions")

def validateComponents : JValue → V Components
  | .obj fs => componentsFields fs
  | _ => .error [⟨.modelType, []⟩]

/-- `arazzo` field: string matching `^1\.0\.\d+(-.+)?$` (src line 575). -/
def arazzoVersionField (fs : List (String × JValue)) : V String :=
  (reqStrF fs "arazzo" "arazzo").bind fun s =>
    if arazzoVersionMatch s then .ok s
    else .error [⟨.patternMismatch, [.key "arazzo"]⟩]

def arazzoDeclared : List String :=
  ["arazzo", "info", "sourceDescriptions", "source_descriptions",
   "workflows", "components"]

def arazzoSpecificationFields (fs : List (String × JValue)) : V ArazzoSpecification :=
  vap (vap (vap (vap (vap
    (.ok fun a i sd w c =>
      ArazzoSpecification.mk a i sd w c (extrasOf fs arazzoDeclared))
    (arazzoVersionField fs))
    (reqModelF validateInfo fs "info" "info"))
    (withUniqueBy SourceDescription.name "sourceDescriptions"
      (reqListF validateSourceDescription fs "sourceDescriptions" "source_descriptions" 1)))
    (withUniqueBy Workflow.workflow_id "workflows"
      (reqListF validateWorkflow fs "workflows" "workflows" 1)))
    (optModelF validateComponents fs "components" "components")

/-- `validate_arazzo_data` (src lines 626-639): validate a decoded mapping
against the root model; any other decoded value fails. -/
def validate_arazzo_data : JValue → V ArazzoSpecification
  | .obj fs => arazzoSpecificationFields fs
  | _ => .error [⟨.modelType, []⟩]

/-- Drop every `version` key of a mapping (used to state the
missing-`info.version` scenario). -/
def dropVersionKey : JValue → JValue
  | .obj gs => .obj (gs.filter fun kv => kv.1 != "version")
  | v => v

/-- Replace the value of every `info` key by its version-less variant. -/
def removeInfoVersion : JValue → JValue
  | .obj fs =>
      .obj (fs.map fun kv =>
        if kv.1 = "info" then (kv.1, dropVersionKey kv.2) else kv)
  | v => v

/-! ### Inversion lemmas for the validation combinators -/

theorem vbind_eq_ok {α β : Type} {x : V α} {f : α → V β} {b : β} :
    x.bind f = .ok b ↔ ∃ a, x = .ok a ∧ f a = .ok b := by
  cases x <;> simp [Except.bind]

theorem vmap_eq_ok {α β : Type} {x : V α} {g : α → β} {b : β} :
    x.map g = .ok b ↔ ∃ a, x = .ok a ∧ g a = b := by
  cases x <;> simp [Except.map]

theorem vbind_error {α β : Type} {x : V α} {f : α → V β} {es : List VError}
    (hx : x = .error es) : x.bind f = .error es := by
  subst hx; rfl

theorem vElems_ok {α : Type} {f : JValue → V α} :
    ∀ {xs : List JValue} {i : Nat} {l : List α},
      vElems f i xs = .ok l →
      l.length = xs.length ∧ ∀ x ∈ l, ∃ v ∈ xs, f v = .ok x := by
  intro xs
  induction xs with
  | nil =>
      intro i l h
      simp only [vElems] at h
      cases h
      simp
  | cons y ys ih =>
      intro i l h
      simp only [vElems] at h
      rw [vap_eq_ok] at h
      obtain ⟨g, rest, hg, hrest, hb⟩ := h
      rw [vap_eq_ok] at hg
      obtain ⟨g2, a, hg2, ha, hga⟩ := hg
      cases hg2
      rw [under_eq_ok] at ha
      subst hga hb
      obtain ⟨hlen, hall⟩ := ih hrest
      constructor
      · simp [hlen]
      · intro x hx
        rcases List.mem_cons.1 hx with rfl | hx2
        · exact ⟨y, List.mem_cons_self _ _, ha⟩
        · obtain ⟨v, hv, hfv⟩ := hall x hx2
          exact ⟨v, List.mem_cons_of_mem _ hv, hfv⟩

theorem reqListF_ok {α : Type} {f : JValue → V α} {fs : List (String × JValue)}
    {al nm : String} {m : Nat} {l : List α}
    (h : reqListF f fs al nm m = .ok l) :
    m ≤ l.length ∧ ∀ x ∈ l, ∃ v, f v = .ok x := by
  unfold reqListF at h
  cases hlk : lookupField fs al nm with
  | none => rw [hlk] at h; cases h
  | some v =>
      rw [hlk] at h
      cases v <;> try cases h
      case arr xs =>
        dsimp only at h
        by_cases hlen : xs.length < m
        · rw [if_pos hlen] at h; cases h
        · rw [if_neg hlen] at h
          rw [under_eq_ok] at h
          obtain ⟨hl, hall⟩ := vElems_ok h
          exact ⟨by omega, fun x hx => (hall x hx).imp fun v hv => hv.2⟩

theorem optListF_ok {α : Type} {f : JValue → V α} {fs : List (String × JValue)}
    {al nm : String} {m : Nat} {o : Option (List α)}
    (h : optListF f fs al nm m = .ok o) :
    ∀ l, o = some l → m ≤ l.length ∧ ∀ x ∈ l, ∃ v, f v = .ok x := by
  intro l hol
  subst hol
  unfold optListF at h
  cases hlk : lookupField fs al nm with
  | none => rw [hlk] at h; cases h
  | some v =>
      rw [hlk] at h
      cases v <;> try cases h
      case arr xs =>
        dsimp only at h
        by_cases hlen : xs.length < m
        · rw [if_pos hlen] at h; cases h
        · rw [if_neg hlen] at h
          rw [vmap_eq_ok] at h
          obtain ⟨l2, hl2, he⟩ := h
          cases he
          rw [under_eq_ok] at hl2
          obtain ⟨hl, hall⟩ := vElems_ok hl2
          exact ⟨by omega, fun x hx => (hall x hx).imp fun v hv => hv.2⟩

theorem withUniqueOpt_ok {α : Type} [DecidableEq α] {al : String}
    {v : V (Option (List α))} {o : Option (List α)}
    (h : withUniqueOpt al v = .ok o) :
    v = .ok o ∧ ∀ l, o = some l → uniqueOk l := by
  unfold withUniqueOpt at h
  rw [vbind_eq_ok] at h
  obtain ⟨a, ha, hf⟩ := h
  cases a with
  | none =>
      cases hf
      exact ⟨ha, by simp⟩
  | some l =>
      dsimp only at hf
      by_cases hu : uniqueOk l
      · rw [if_pos hu] at hf
        cases hf
        refine ⟨ha, ?_⟩
        rintro l2 ⟨rfl⟩
        exact hu
      · rw [if_neg hu] at hf
        cases hf

theorem withUniqueBy_ok {α : Type} {key : α → String} {al : String}
    {v : V (List α)} {l : List α}
    (h : withUniqueBy key al v = .ok l) :
    v = .ok l ∧ idsUnique (l.map key) := by
  unfold withUniqueBy at h
  rw [vbind_eq_ok] at h
  obtain ⟨a, ha, hf⟩ := h
  by_cases hu : idsUnique (a.map key)
  · rw [if_pos hu] at hf
    cases hf
    exact ⟨ha, hu⟩
  · rw [if_neg hu] at hf
    cases hf

theorem optFloatGeF_ok {fs : List (String × JValue)} {al nm : String}
    {lo q : Rat} (h : optFloatGeF fs al nm lo = .ok (some q)) : lo ≤ q := by
  unfold optFloatGeF at h
  cases hlk : lookupField fs al nm with
  | none => rw [hlk] at h; cases h
  | some v =>
      rw [hlk] at h
      cases v <;> try cases h
      case num q2 =>
        dsimp only at h
        by_cases hge : lo ≤ q2
        · rw [if_pos hge] at h
          cases h
          exact hge
        · rw [if_neg hge] at h; cases h

theorem optIntGeF_ok {fs : List (String × JValue)} {al nm : String}
    {lo z : Int} (h : optIntGeF fs al nm lo = .ok (some z)) : lo ≤ z := by
  unfold optIntGeF at h
  cases hlk : lookupField fs al nm with
  | none => rw [hlk] at h; cases h
  | some v =>
      rw [hlk] at h
      cases v <;> try cases h
      case num q2 =>
        dsimp only at h
        by_cases hden : q2.den = 1
        · rw [if_pos hden] at h
          by_cases hge : lo ≤ q2.num
          · rw [if_pos hge] at h
            cases h
            exact hge
          · rw [if_neg hge] at h; cases h
        · rw [if_neg hden] at h; cases h

theorem optModelF_ok {α : Type} {f : JValue → V α} {fs : List (String × JValue)}
    {al nm : String} {x : α} (h : optModelF f fs al nm = .ok (some x)) :
    ∃ v, f v = .ok x := by
  unfold optModelF at h
  cases hlk : lookupField fs al nm with
  | none => rw [hlk] at h; cases h
  | some v =>
      rw [hlk] at h
      cases v <;>
        first
        | cases h
        | · rw [vmap_eq_ok] at h
            obtain ⟨a, ha, he⟩ := h
            cases he
            rw [under_eq_ok] at ha
            exact ⟨_, ha⟩

theorem modelMapEntries_ok {α : Type} {f : JValue → V α} :
    ∀ {gs : List (String × JValue)} {m : List (String × α)},
      modelMapEntries f gs = .ok m → ∀ kv ∈ m, ∃ v, f v = .ok kv.2 := by
  intro gs
  induction gs with
  | nil =>
      intro m h
      simp only [modelMapEntries] at h
      cases h
      simp
  | cons y ys ih =>
      intro m h
      obtain ⟨k, v⟩ := y
      simp only [modelMapEntries] at h
      rw [vap_eq_ok] at h
      obtain ⟨g, rest, hg, hrest, hb⟩ := h
      rw [vap_eq_ok] at hg
      obtain ⟨g2, a, hg2, ha, hga⟩ := hg
      cases hg2
      rw [vmap_eq_ok] at ha
      obtain ⟨a2, ha2, he⟩ := ha
      rw [under_eq_ok] at ha2
      subst hga hb he
      intro kv hkv
      rcases List.mem_cons.1 hkv with rfl | hkv2
      · exact ⟨_, ha2⟩
      · exact ih hrest kv hkv2

theorem optModelMapF_ok {α : Type} {f : JValue → V α}
    {fs : List (String × JValue)} {al nm : String} {m : List (String × α)}
    (h : optModelMapF f fs al nm = .ok (some m)) :
    ∀ kv ∈ m, ∃ v, f v = .ok kv.2 := by
  unfold optModelMapF at h
  cases hlk : lookupField fs al nm with
  | none => rw [hlk] at h; cases h
  | some v =>
      rw [hlk] at h
      cases v <;> try cases h
      case obj gs =>
        rw [vmap_eq_ok] at h
        obtain ⟨a, ha, he⟩ := h
        cases he
        rw [under_eq_ok] at ha
        exact modelMapEntries_ok ha

/-! ### Inversion of the model-level after-validators -/

theorem criterionExpressionTypeAfter_ok {e e2 : CriterionExpressionType}
    (h : criterionExpressionTypeAfter e = .ok e2) :
    e2 = e ∧ (e.type = .jsonpath → e.version = draftGoessner)
      ∧ (e.type = .xpath → e.version ∈ xpathVersions) := by
  unfold criterionExpressionTypeAfter at h
  split_ifs at h with h1 h2
  cases h
  push_neg at h1 h2
  exact ⟨rfl, fun ht => by tauto, fun ht => by tauto⟩

theorem criterionAfter_ok {c c2 : Criterion} (h : criterionAfter c = .ok c2) :
    c2 = c ∧ (criterionResolvedExpression c.type = true → c.context.isSome = true) := by
  unfold criterionAfter at h
  split_ifs at h with h1
  cases h
  refine ⟨rfl, fun hr => ?_⟩
  rcases hc : c.context with _ | s
  · exact absurd ⟨hr, hc⟩ h1
  · rfl

theorem successActionAfter_ok {a a2 : SuccessAction}
    (h : successActionAfter a = .ok a2) :
    a2 = a ∧ (a.type = .goto →
      (pyTruthy a.workflow_id || pyTruthy a.step_id) = true
        ∧ (pyTruthy a.workflow_id && pyTruthy a.step_id) = false) := by
  unfold successActionAfter at h
  split_ifs at h with h1 h2 h3
  · cases h
    refine ⟨rfl, fun _ => ⟨?_, ?_⟩⟩
    · cases hb : (pyTruthy a.workflow_id || pyTruthy a.step_id)
      · exact absurd (by rw [hb]; rfl) h2
      · rfl
    · cases hb : (pyTruthy a.workflow_id && pyTruthy a.step_id)
      · rfl
      · exact absurd hb h3
  · cases h
    exact ⟨rfl, fun ht => absurd ht h1⟩

theorem failureActionAfter_ok {a a2 : FailureAction}
    (h : failureActionAfter a = .ok a2) :
    a2 = a
      ∧ ((a.type = .goto ∨ a.type = .retry) →
          (pyTruthy a.workflow_id || pyTruthy a.step_id) = true
            ∧ (pyTruthy a.workflow_id && pyTruthy a.step_id) = false)
      ∧ (a.type = .retry → a.retry_after ≠ none) := by
  unfold failureActionAfter at h
  split_ifs at h with h1 h2 h3 h4
  · cases h
    push_neg at h4
    refine ⟨rfl, fun _ => ⟨?_, ?_⟩, h4⟩
    · cases hb : (pyTruthy a.workflow_id || pyTruthy a.step_id)
      · exact absurd (by rw [hb]; rfl) h2
      · rfl
    · cases hb : (pyTruthy a.workflow_id && pyTruthy a.step_id)
      · rfl
      · exact absurd hb h3
  · cases h
    exact ⟨rfl, fun ht => absurd ht h1, fun ht => absurd (Or.inr ht) h1⟩

theorem checkParamsOperation_ok :
    ∀ (ps : List ParamOrReusable) (i : Nat), checkParamsOperation i ps = .ok () →
      ∀ x ∈ ps, ∀ p, x = .param p → p.in_ ≠ none := by
  intro ps
  induction ps with
  | nil =>
      intro i _ x hx
      cases hx
  | cons y ys ih =>
      intro i h x hx p hxp
      cases y with
      | param p2 =>
          simp only [checkParamsOperation] at h
          by_cases hin : p2.in_ = none
          · rw [if_pos hin] at h
            cases h
          · rw [if_neg hin] at h
            rcases List.mem_cons.1 hx with rfl | hx2
            · cases hxp
              exact hin
            · exact ih (i + 1) h x hx2 p hxp
      | reusable r =>
          simp only [checkParamsOperation] at h
          rcases List.mem_cons.1 hx with rfl | hx2
          · cases hxp
          · exact ih (i + 1) h x hx2 p hxp

theorem checkParamsWorkflow_ok :
    ∀ (ps : List ParamOrReusable) (i : Nat), checkParamsWorkflow i ps = .ok () := by
  intro ps
  induction ps with
  | nil => intro i; rfl
  | cons y ys ih => intro i; simpa only [checkParamsWorkflow] using ih (i + 1)

theorem stepAfter_ok {s t : Step} (h : stepAfter s = .ok t) :
    t = s
      ∧ ([s.operation_id, s.operation_path, s.workflow_id].filterMap id).length = 1
      ∧ ((pyTruthy s.operation_id || pyTruthy s.operation_path) = true →
          ∀ l, s.parameters = some l → ∀ x ∈ l, ∀ p, x = .param p → p.in_ ≠ none) := by
  unfold stepAfter at h
  dsimp only at h
  by_cases hie :
      ([s.operation_id, s.operation_path, s.workflow_id].filterMap id).isEmpty = true
  · rw [if_pos hie] at h
    cases h
  rw [if_neg hie] at h
  by_cases hgt :
      1 < ([s.operation_id, s.operation_path, s.workflow_id].filterMap id).length
  · rw [if_pos hgt] at h
    cases h
  rw [if_neg hgt] at h
  have hlen :
      ([s.operation_id, s.operation_path, s.workflow_id].filterMap id).length = 1 := by
    rcases hl : [s.operation_id, s.operation_path, s.workflow_id].filterMap id with
      _ | ⟨z, zs⟩
    · rw [hl] at hie
      exact absurd rfl hie
    · rw [hl] at hgt
      simp only [List.length_cons] at hgt ⊢
      omega
  rcases hp : s.parameters with _ | ps
  · rw [hp] at h
    dsimp only at h
    cases h
    exact ⟨rfl, hlen, fun _ l hl => by cases hl⟩
  · rw [hp] at h
    dsimp only at h
    by_cases hemp : ps.isEmpty = true
    · rw [if_pos hemp] at h
      cases h
      refine ⟨rfl, hlen, fun _ l hl => ?_⟩
      cases hl
      intro x hx
      rw [List.isEmpty_iff] at hemp
      subst hemp
      cases hx
    · rw [if_neg hemp] at h
      by_cases hop : (pyTruthy s.operation_id || pyTruthy s.operation_path) = true
      · rw [if_pos hop] at h
        rw [vmap_eq_ok] at h
        obtain ⟨u, hu, ht⟩ := h
        subst ht
        refine ⟨rfl, hlen, fun _ l hl => ?_⟩
        cases hl
        cases u
        exact checkParamsOperation_ok ps 0 hu
      · rw [if_neg hop] at h
        have hres : t = s := by
          by_cases hwf : pyTruthy s.workflow_id = true
          · rw [if_pos hwf] at h
            rw [vmap_eq_ok] at h
            obtain ⟨u, _, ht⟩ := h
            exact ht.symm
          · rw [if_neg hwf] at h
            cases h
            rfl
        exact ⟨hres, hlen, fun hc => absurd hc hop⟩

/-! ### Wellformedness guaranteed by successful validation -/

/-- Invariants of a validated `CriterionExpressionType`. -/
def CriterionExpressionTypeWF (e : CriterionExpressionType) : Prop :=
  (e.type = .jsonpath → e.version = draftGoessner)
    ∧ (e.type = .xpath → e.version ∈ xpathVersions)

/-- Invariants of a validated `Criterion`. -/
def CriterionWF (c : Criterion) : Prop :=
  (criterionResolvedExpression c.type = true → c.context.isSome = true)
    ∧ ∀ e, c.type = .expr e → CriterionExpressionTypeWF e

/-- Invariants of a validated `SuccessAction`. -/
def SuccessActionWF (a : SuccessAction) : Prop :=
  (a.type = .goto →
    (pyTruthy a.workflow_id || pyTruthy a.step_id) = true
      ∧ (pyTruthy a.workflow_id && pyTruthy a.step_id) = false)
    ∧ a.criteria ≠ some []
    ∧ ∀ l, a.criteria = some l → uniqueOk l = true ∧ ∀ c ∈ l, CriterionWF c

/-- Invariants of a validated `FailureAction`. -/
def FailureActionWF (a : FailureAction) : Prop :=
  ((a.type = .goto ∨ a.type = .retry) →
    (pyTruthy a.workflow_id || pyTruthy a.step_id) = true
      ∧ (pyTruthy a.workflow_id && pyTruthy a.step_id) = false)
    ∧ (a.type = .retry → a.retry_after ≠ none)
    ∧ (∀ q, a.retry_after = some q → 0 ≤ q)
    ∧ (∀ z, a.retry_limit = some z → 0 ≤ z)
    ∧ ∀ l, a.criteria = some l → uniqueOk l = true ∧ ∀ c ∈ l, CriterionWF c

def SuccessOrReusableWF : SuccessOrReusable → Prop
  | .action a => SuccessActionWF a
  | .reusable _ => True

def FailureOrReusableWF : FailureOrReusable → Prop
  | .action a => FailureActionWF a
  | .reusable _ => True

def RequestBodyWF (rb : RequestBody) : Prop :=
  ∀ l, rb.replacements = some l → uniqueOk l = true

/-- Invariants of a validated `Step`. -/
def StepWF (s : Step) : Prop :=
  ([s.operation_id, s.operation_path, s.workflow_id].filterMap id).length = 1
    ∧ ((pyTruthy s.operation_id || pyTruthy s.operation_path) = true →
        ∀ l, s.parameters = some l → ∀ x ∈ l, ∀ p, x = .param p → p.in_ ≠ none)
    ∧ s.success_criteria ≠ some []
    ∧ (∀ l, s.parameters = some l → uniqueOk l = true)
    ∧ (∀ l, s.success_criteria = some l → uniqueOk l = true ∧ ∀ c ∈ l, CriterionWF c)
    ∧ (∀ l, s.on_success = some l → uniqueOk l = true ∧ ∀ x ∈ l, SuccessOrReusableWF x)
    ∧ (∀ l, s.on_failure = some l → uniqueOk l = true ∧ ∀ x ∈ l, FailureOrReusableWF x)
    ∧ (∀ rb, s.request_body = some rb → RequestBodyWF rb)

/-- Invariants of a validated `Workflow`. -/
def WorkflowWF (w : Workflow) : Prop :=
  w.steps ≠ []
    ∧ idsUnique (w.steps.map Step.step_id) = true
    ∧ (∀ s ∈ w.steps, StepWF s)
    ∧ (∀ l, w.depends_on = some l → uniqueOk l = true)
    ∧ (∀ l, w.success_actions = some l →
        uniqueOk l = true ∧ ∀ x ∈ l, SuccessOrReusableWF x)
    ∧ (∀ l, w.failure_actions = some l →
        uniqueOk l = true ∧ ∀ x ∈ l, FailureOrReusableWF x)
    ∧ (∀ l, w.parameters = some l → uniqueOk l = true)

def ComponentsWF (c : Components) : Prop :=
  (∀ m, c.success_actions = some m → ∀ kv ∈ m, SuccessActionWF kv.2)
    ∧ (∀ m, c.failure_actions = some m → ∀ kv ∈ m, FailureActionWF kv.2)

/-- Invariants of a successfully validated document. -/
def ArazzoSpecificationWF (g : ArazzoSpecification) : Prop :=
  arazzoVersionMatch g.arazzo = true
    ∧ g.source_descriptions ≠ []
    ∧ idsUnique (g.source_descriptions.map SourceDescription.name) = true
    ∧ (∀ sd ∈ g.source_descriptions,
        namePatternMatch sd.name = true ∧ hasWhitespace sd.url = false)
    ∧ g.workflows ≠ []
    ∧ idsUnique (g.workflows.map Workflow.workflow_id) = true
    ∧ (∀ w ∈ g.workflows, WorkflowWF w)
    ∧ (∀ c, g.components = some c → ComponentsWF c)

/-! ### Master lemmas: successful validation implies wellformedness -/

theorem validateCriterionExpressionType_WF {v : JValue} {e : CriterionExpressionType}
    (h : validateCriterionExpressionType v = .ok e) : CriterionExpressionTypeWF e := by
  cases v <;> try cases h
  case obj fs =>
    simp only [validateCriterionExpressionType] at h
    rw [vbind_eq_ok] at h
    obtain ⟨e0, hf, ha⟩ := h
    obtain ⟨rfl, hj, hx⟩ := criterionExpressionTypeAfter_ok ha
    exact ⟨hj, hx⟩

theorem criterionTypeField_WF {fs : List (String × JValue)} {t : CriterionTypeUnion}
    (h : criterionTypeField fs = .ok t) :
    ∀ e, t = .expr e → CriterionExpressionTypeWF e := by
  unfold criterionTypeField at h
  cases hlk : lookupField fs "type" "type" with
  | none =>
      rw [hlk] at h
      cases h
      intro e he
      cases he
  | some v =>
      rw [hlk] at h
      cases v <;> try cases h
      case str s =>
        dsimp only at h
        cases hc : ConditionType.ofString s with
        | none => rw [hc] at h; cases h
        | some t2 =>
            rw [hc] at h
            cases h
            intro e he
            cases he
      case obj gs =>
        rw [vmap_eq_ok] at h
        obtain ⟨e0, he0, ht⟩ := h
        rw [under_eq_ok] at he0
        subst ht
        intro e he
        cases he
        exact validateCriterionExpressionType_WF he0

theorem validateCriterion_WF {v : JValue} {c : Criterion}
    (h : validateCriterion v = .ok c) : CriterionWF c := by
  cases v <;> try cases h
  case obj fs =>
    simp only [validateCriterion] at h
    rw [vbind_eq_ok] at h
    obtain ⟨c0, hf, ha⟩ := h
    obtain ⟨rfl, hctx⟩ := criterionAfter_ok ha
    simp only [criterionFields] at hf
    rw [vap_eq_ok] at hf
    obtain ⟨g1, a3, hg1, h3, hb1⟩ := hf
    rw [vap_eq_ok] at hg1
    obtain ⟨g2, a2, hg2, h2, hb2⟩ := hg1
    rw [vap_eq_ok] at hg2
    obtain ⟨g3, a1, hg3, h1, hb3⟩ := hg2
    cases hg3
    subst hb3 hb2 hb1
    exact ⟨hctx, fun e he => criterionTypeField_WF h3 e he⟩

theorem validateSuccessAction_WF {v : JValue} {a : SuccessAction}
    (h : validateSuccessAction v = .ok a) : SuccessActionWF a := by
  cases v <;> try cases h
  case obj fs =>
    simp only [validateSuccessAction] at h
    rw [vbind_eq_ok] at h
    obtain ⟨a0, hf, ha⟩ := h
    obtain ⟨rfl, hgoto⟩ := successActionAfter_ok ha
    simp only [successActionFields] at hf
    rw [vap_eq_ok] at hf
    obtain ⟨g1, a5, hg1, h5, hb1⟩ := hf
    rw [vap_eq_ok] at hg1
    obtain ⟨g2, a4, hg2, h4, hb2⟩ := hg1
    rw [vap_eq_ok] at hg2
    obtain ⟨g3, a3, hg3, h3, hb3⟩ := hg2
    rw [vap_eq_ok] at hg3
    obtain ⟨g4, a2, hg4, h2, hb4⟩ := hg3
    rw [vap_eq_ok] at hg4
    obtain ⟨g5, a1, hg5, h1, hb5⟩ := hg4
    cases hg5
    subst hb5 hb4 hb3 hb2 hb1
    obtain ⟨hlist, huniq⟩ := withUniqueOpt_ok h5
    refine ⟨hgoto, ?_, ?_⟩
    · intro hc
      have := (optListF_ok hlist [] hc).1
      simp at this
    · intro l hl
      refine ⟨huniq l hl, ?_⟩
      obtain ⟨_, hall⟩ := optListF_ok hlist l hl
      intro c hc
      obtain ⟨vv, hv⟩ := hall c hc
      exact validateCriterion_WF hv

theorem validateFailureAction_WF {v : JValue} {a : FailureAction}
    (h : validateFailureAction v = .ok a) : FailureActionWF a := by
  cases v <;> try cases h
  case obj fs =>
    simp only [validateFailureAction] at h
    rw [vbind_eq_ok] at h
    obtain ⟨a0, hf, ha⟩ := h
    obtain ⟨rfl, hgoto, hretry⟩ := failureActionAfter_ok ha
    simp only [failureActionFields] at hf
    rw [vap_eq_ok] at hf
    obtain ⟨g1, a7, hg1, h7, hb1⟩ := hf
    rw [vap_eq_ok] at hg1
    obtain ⟨g2, a6, hg2, h6, hb2⟩ := hg1
    rw [vap_eq_ok] at hg2
    obtain ⟨g3, a5, hg3, h5, hb3⟩ := hg2
    rw [vap_eq_ok] at hg3
    obtain ⟨g4, a4, hg4, h4, hb4⟩ := hg3
    rw [vap_eq_ok] at hg4
    obtain ⟨g5, a3, hg5, h3, hb5⟩ := hg4
    rw [vap_eq_ok] at hg5
    obtain ⟨g6, a2, hg6, h2, hb6⟩ := hg5
    rw [vap_eq_ok] at hg6
    obtain ⟨g7, a1, hg7, h1, hb7⟩ := hg6
    cases hg7
    subst hb7 hb6 hb5 hb4 hb3 hb2 hb1
    obtain ⟨hlist, huniq⟩ := withUniqueOpt_ok h7
    refine ⟨hgoto, hretry, ?_, ?_, ?_⟩
    · intro q hq
      have hq2 : a5 = some q := hq
      rw [hq2] at h5
      exact optFloatGeF_ok h5
    · intro z hz
      have hz2 : a6 = some z := hz
      rw [hz2] at h6
      exact optIntGeF_ok h6
    · intro l hl
      refine ⟨huniq l hl, ?_⟩
      obtain ⟨_, hall⟩ := optListF_ok hlist l hl
      intro c hc
      obtain ⟨vv, hv⟩ := hall c hc
      exact validateCriterion_WF hv

theorem validateSuccessOrReusable_WF {v : JValue} {x : SuccessOrReusable}
    (h : validateSuccessOrReusable v = .ok x) : SuccessOrReusableWF x := by
  unfold validateSuccessOrReusable at h
  cases hsa : validateSuccessAction v with
  | ok a =>
      rw [hsa] at h
      cases h
      exact validateSuccessAction_WF hsa
  | error es =>
      rw [hsa] at h
      cases hr : validateReusableObject v with
      | ok r =>
          rw [hr] at h
          cases h
          trivial
      | error es2 =>
          rw [hr] at h
          cases h

theorem validateFailureOrReusable_WF {v : JValue} {x : FailureOrReusable}
    (h : validateFailureOrReusable v = .ok x) : FailureOrReusableWF x := by
  unfold validateFailureOrReusable at h
  cases hfa : validateFailureAction v with
  | ok a =>
      rw [hfa] at h
      cases h
      exact validateFailureAction_WF hfa
  | error es =>
      rw [hfa] at h
      cases hr : validateReusableObject v with
      | ok r =>
          rw [hr] at h
          cases h
          trivial
      | error es2 =>
          rw [hr] at h
          cases h

theorem validateRequestBody_WF {v : JValue} {rb : RequestBody}
    (h : validateRequestBody v = .ok rb) : RequestBodyWF rb := by
  cases v <;> try cases h
  case obj fs =>
    simp only [validateRequestBody, requestBodyFields] at h
    rw [vap_eq_ok] at h
    obtain ⟨g1, a3, hg1, h3, hb1⟩ := h
    rw [vap_eq_ok] at hg1
    obtain ⟨g2, a2, hg2, h2, hb2⟩ := hg1
    rw [vap_eq_ok] at hg2
    obtain ⟨g3, a1, hg3, h1, hb3⟩ := hg2
    cases hg3
    subst hb3 hb2 hb1
    obtain ⟨hlist, huniq⟩ := withUniqueOpt_ok h3
    intro l hl
    exact huniq l hl

theorem validateStep_WF {v : JValue} {st : Step}
    (h : validateStep v = .ok st) : StepWF st := by
  cases v <;> try cases h
  case obj fs =>
    simp only [validateStep] at h
    rw [vbind_eq_ok] at h
    obtain ⟨s0, hf, ha⟩ := h
    obtain ⟨rfl, hone, hin⟩ := stepAfter_ok ha
    simp only [stepFields] at hf
    rw [vap_eq_ok] at hf
    obtain ⟨g1, a11, hg1, h11, hb1⟩ := hf
    rw [vap_eq_ok] at hg1
    obtain ⟨g2, a10, hg2, h10, hb2⟩ := hg1
    rw [vap_eq_ok] at hg2
    obtain ⟨g3, a9, hg3, h9, hb3⟩ := hg2
    rw [vap_eq_ok] at hg3
    obtain ⟨g4, a8, hg4, h8, hb4⟩ := hg3
    rw [vap_eq_ok] at hg4
    obtain ⟨g5, a7, hg5, h7, hb5⟩ := hg4
    rw [vap_eq_ok] at hg5
    obtain ⟨g6, a6, hg6, h6, hb6⟩ := hg5
    rw [vap_eq_ok] at hg6
    obtain ⟨g7, a5, hg7, h5, hb7⟩ := hg6
    rw [vap_eq_ok] at hg7
    obtain ⟨g8, a4, hg8, h4, hb8⟩ := hg7
    rw [vap_eq_ok] at hg8
    obtain ⟨g9, a3, hg9, h3, hb9⟩ := hg8
    rw [vap_eq_ok] at hg9
    obtain ⟨g10, a2, hg10, h2, hb10⟩ := hg9
    rw [vap_eq_ok] at hg10
    obtain ⟨g11, a1, hg11, h1, hb11⟩ := hg10
    cases hg11
    subst hb11 hb10 hb9 hb8 hb7 hb6 hb5 hb4 hb3 hb2 hb1
    obtain ⟨hplist, hpuniq⟩ := withUniqueOpt_ok h6
    obtain ⟨hsclist, hscuniq⟩ := withUniqueOpt_ok h8
    obtain ⟨hoslist, hosuniq⟩ := withUniqueOpt_ok h9
    obtain ⟨hoflist, hofuniq⟩ := withUniqueOpt_ok h10
    refine ⟨hone, hin, ?_, ?_, ?_, ?_, ?_, ?_⟩
    · intro hc
      have := (optListF_ok hsclist [] hc).1
      simp at this
    · intro l hl
      exact hpuniq l hl
    · intro l hl
      refine ⟨hscuniq l hl, ?_⟩
      obtain ⟨_, hall⟩ := optListF_ok hsclist l hl
      intro c hc
      obtain ⟨vv, hv⟩ := hall c hc
      exact validateCriterion_WF hv
    · intro l hl
      refine ⟨hosuniq l hl, ?_⟩
      obtain ⟨_, hall⟩ := optListF_ok hoslist l hl
      intro x hx
      obtain ⟨vv, hv⟩ := hall x hx
      exact validateSuccessOrReusable_WF hv
    · intro l hl
      refine ⟨hofuniq l hl, ?_⟩
      obtain ⟨_, hall⟩ := optListF_ok hoflist l hl
      intro x hx
      obtain ⟨vv, hv⟩ := hall x hx
      exact validateFailureOrReusable_WF hv
    · intro rb hrb
      have hrb2 : a7 = some rb := hrb
      rw [hrb2] at h7
      obtain ⟨vv, hv⟩ := optModelF_ok h7
      exact validateRequestBody_WF hv

theorem validateWorkflow_WF {v : JValue} {w : Workflow}
    (h : validateWorkflow v = .ok w) : WorkflowWF w := by
  cases v <;> try cases h
  case obj fs =>
    simp only [validateWorkflow, workflowFields] at h
    rw [vap_eq_ok] at h
    obtain ⟨g1, a10, hg1, h10, hb1⟩ := h
    rw [vap_eq_ok] at hg1
    obtain ⟨g2, a9, hg2, h9, hb2⟩ := hg1
    rw [vap_eq_ok] at hg2
    obtain ⟨g3, a8, hg3, h8, hb3⟩ := hg2
    rw [vap_eq_ok] at hg3
    obtain ⟨g4, a7, hg4, h7, hb4⟩ := hg3
    rw [vap_eq_ok] at hg4
    obtain ⟨g5, a6, hg5, h6, hb5⟩ := hg4
    rw [vap_eq_ok] at hg5
    obtain ⟨g6, a5, hg6, h5, hb6⟩ := hg5
    rw [vap_eq_ok] at hg6
    obtain ⟨g7, a4, hg7, h4, hb7⟩ := hg6
    rw [vap_eq_ok] at hg7
    obtain ⟨g8, a3, hg8, h3, hb8⟩ := hg7
    rw [vap_eq_ok] at hg8
    obtain ⟨g9, a2, hg9, h2, hb9⟩ := hg8
    rw [vap_eq_ok] at hg9
    obtain ⟨g10, a1, hg10, h1, hb10⟩ := hg9
    cases hg10
    subst hb10 hb9 hb8 hb7 hb6 hb5 hb4 hb3 hb2 hb1
    obtain ⟨hstepl, hstepu⟩ := withUniqueBy_ok h6
    obtain ⟨hlen, hall⟩ := reqListF_ok hstepl
    obtain ⟨hdeplist, hdepuniq⟩ := withUniqueOpt_ok h5
    obtain ⟨hsalist, hsauniq⟩ := withUniqueOpt_ok h7
    obtain ⟨hfalist, hfauniq⟩ := withUniqueOpt_ok h8
    obtain ⟨hparlist, hparuniq⟩ := withUniqueOpt_ok h10
    refine ⟨?_, hstepu, ?_, ?_, ?_, ?_, ?_⟩
    · intro hc
      have hc2 : a6 = ([] : List Step) := hc
      rw [hc2] at hlen
      simp at hlen
    · intro st hst
      obtain ⟨vv, hv⟩ := hall st hst
      exact validateStep_WF hv
    · intro l hl
      exact hdepuniq l hl
    · intro l hl
      refine ⟨hsauniq l hl, ?_⟩
      obtain ⟨_, hall2⟩ := optListF_ok hsalist l hl
      intro x hx
      obtain ⟨vv, hv⟩ := hall2 x hx
      exact validateSuccessOrReusable_WF hv
    · intro l hl
      refine ⟨hfauniq l hl, ?_⟩
      obtain ⟨_, hall2⟩ := optListF_ok hfalist l hl
      intro x hx
      obtain ⟨vv, hv⟩ := hall2 x hx
      exact validateFailureOrReusable_WF hv
    · intro l hl
      exact hparuniq l hl

theorem sourceNameField_ok {fs : List (String × JValue)} {n : String}
    (h : sourceNameField fs = .ok n) : namePatternMatch n = true := by
  unfold sourceNameField at h
  rw [vbind_eq_ok] at h
  obtain ⟨s2, hs, hif⟩ := h
  by_cases hp : namePatternMatch s2
  · rw [if_pos hp] at hif
    cases hif
    exact hp
  · rw [if_neg hp] at hif
    cases hif

theorem sourceUrlField_ok {fs : List (String × JValue)} {u : String}
    (h : sourceUrlField fs = .ok u) : hasWhitespace u = false := by
  unfold sourceUrlField at h
  rw [vbind_eq_ok] at h
  obtain ⟨s2, hs, hif⟩ := h
  by_cases hw : hasWhitespace s2
  · rw [if_pos hw] at hif
    cases hif
  · rw [if_neg hw] at hif
    cases hif
    exact Bool.eq_false_iff.2 hw

theorem validateSourceDescription_WF {v : JValue} {sd : SourceDescription}
    (h : validateSourceDescription v = .ok sd) :
    namePatternMatch sd.name = true ∧ hasWhitespace sd.url = false := by
  cases v <;> try cases h
  case obj fs =>
    simp only [validateSourceDescription, sourceDescriptionFields] at h
    rw [vap_eq_ok] at h
    obtain ⟨g1, a3, hg1, h3, hb1⟩ := h
    rw [vap_eq_ok] at hg1
    obtain ⟨g2, a2, hg2, h2, hb2⟩ := hg1
    rw [vap_eq_ok] at hg2
    obtain ⟨g3, a1, hg3, h1, hb3⟩ := hg2
    cases hg3
    subst hb3 hb2 hb1
    exact ⟨sourceNameField_ok h1, sourceUrlField_ok h2⟩

theorem validateComponents_WF {v : JValue} {c : Components}
    (h : validateComponents v = .ok c) : ComponentsWF c := by
  cases v <;> try cases h
  case obj fs =>
    simp only [validateComponents, componentsFields] at h
    rw [vap_eq_ok] at h
    obtain ⟨g1, a4, hg1, h4, hb1⟩ := h
    rw [vap_eq_ok] at hg1
    obtain ⟨g2, a3, hg2, h3, hb2⟩ := hg1
    rw [vap_eq_ok] at hg2
    obtain ⟨g3, a2, hg3, h2, hb3⟩ := hg2
    rw [vap_eq_ok] at hg3
    obtain ⟨g4, a1, hg4, h1, hb4⟩ := hg3
    cases hg4
    subst hb4 hb3 hb2 hb1
    constructor
    · intro m hm kv hkv
      have hm2 : a3 = some m := hm
      rw [hm2] at h3
      obtain ⟨vv, hv⟩ := optModelMapF_ok h3 kv hkv
      exact validateSuccessAction_WF hv
    · intro m hm kv hkv
      have hm2 : a4 = some m := hm
      rw [hm2] at h4
      obtain ⟨vv, hv⟩ := optModelMapF_ok h4 kv hkv
      exact validateFailureAction_WF hv

theorem arazzoVersionField_ok {fs : List (String × JValue)} {a : String}
    (h : arazzoVersionField fs = .ok a) : arazzoVersionMatch a = true := by
  unfold arazzoVersionField at h
  rw [vbind_eq_ok] at h
  obtain ⟨s2, hs, hif⟩ := h
  by_cases hp : arazzoVersionMatch s2
  · rw [if_pos hp] at hif
    cases hif
    exact hp
  · rw [if_neg hp] at hif
    cases hif

theorem validate_arazzo_data_WF {d : JValue} {g : ArazzoSpecification}
    (h : validate_arazzo_data d = .ok g) : ArazzoSpecificationWF g := by
  cases d <;> try cases h
  case obj fs =>
    simp only [validate_arazzo_data, arazzoSpecificationFields] at h
    rw [vap_eq_ok] at h
    obtain ⟨g1, a5, hg1, h5, hb1⟩ := h
    rw [vap_eq_ok] at hg1
    obtain ⟨g2, a4, hg2, h4, hb2⟩ := hg1
    rw [vap_eq_ok] at hg2
    obtain ⟨g3, a3, hg3, h3, hb3⟩ := hg2
    rw [vap_eq_ok] at hg3
    obtain ⟨g4, a2, hg4, h2, hb4⟩ := hg3
    rw [vap_eq_ok] at hg4
    obtain ⟨g5, a1, hg5, h1, hb5⟩ := hg4
    cases hg5
    subst hb5 hb4 hb3 hb2 hb1
    obtain ⟨hsdl, hsdu⟩ := withUniqueBy_ok h3
    obtain ⟨hsdlen, hsdall⟩ := reqListF_ok hsdl
    obtain ⟨hwl, hwu⟩ := withUniqueBy_ok h4
    obtain ⟨hwlen, hwall⟩ := reqListF_ok hwl
    refine ⟨arazzoVersionField_ok h1, ?_, hsdu, ?_, ?_, hwu, ?_, ?_⟩
    · intro hc
      have hc2 : a3 = ([] : List SourceDescription) := hc
      rw [hc2] at hsdlen
      simp at hsdlen
    · intro sd hsd
      obtain ⟨vv, hv⟩ := hsdall sd hsd
      exact validateSourceDescription_WF hv
    · intro hc
      have hc2 : a4 = ([] : List Workflow) := hc
      rw [hc2] at hwlen
      simp at hwlen
    · intro w hw
      obtain ⟨vv, hv⟩ := hwall w hw
      exact validateWorkflow_WF hv
    · intro c hc
      have hc2 : a5 = some c := hc
      rw [hc2] at h5
      obtain ⟨vv, hv⟩ := optModelF_ok h5
      exact validateComponents_WF hv

/-! ### Uniqueness checks versus `Nodup` -/

theorem uniqueOk_iff_nodup {α : Type} [DecidableEq α] (l : List α) :
    uniqueOk l = true ↔ l.Nodup := by
  have hmem : ∀ x, x ∈ findDuplicates ([] : List α) l ↔ 2 ≤ l.count x := by
    intro x
    simpa using mem_findDuplicates x l []
  unfold uniqueOk
  rw [List.isEmpty_iff, List.eq_nil_iff_forall_not_mem, List.nodup_iff_count_le_one]
  constructor
  · intro h a
    have := h a
    rw [hmem a] at this
    omega
  · intro h a
    rw [hmem a]
    have := h a
    omega

theorem idsUnique_iff_nodup (ids : List String) :
    idsUnique ids = true ↔ ids.Nodup := by
  unfold idsUnique
  rw [decide_eq_true_eq]
  constructor
  · intro h
    have hsub := List.dedup_sublist ids
    have heq : ids.dedup = ids := hsub.eq_of_length h
    exact List.dedup_eq_self.1 heq
  · intro h
    rw [List.dedup_eq_self.2 h]

theorem mem_reportedDuplicates {α : Type} [DecidableEq α] (l : List α) (x : α) :
    x ∈ reportedDuplicates l ↔ 2 ≤ l.count x := by
  unfold reportedDuplicates
  rw [List.mem_dedup]
  simpa using mem_findDuplicates x l []

/-! ### Error production of the cross-field validators -/

theorem validateStep_missing_target {fs : List (String × JValue)} {s : Step}
    (hf : stepFields fs = .ok s) (h1 : s.operation_id = none)
    (h2 : s.operation_path = none) (h3 : s.workflow_id = none) :
    validateStep (.obj fs) = .error [⟨.stepMissingTargetType, []⟩] := by
  have hb : validateStep (.obj fs) = stepAfter s := by
    simp only [validateStep]
    rw [hf]
    rfl
  rw [hb]
  unfold stepAfter
  dsimp only
  rw [h1, h2, h3]
  rfl

theorem validateStep_exclusive_target {fs : List (String × JValue)} {s : Step}
    (hf : stepFields fs = .ok s)
    (hlen : 2 ≤ ([s.operation_id, s.operation_path, s.workflow_id].filterMap id).length) :
    validateStep (.obj fs) = .error [⟨.stepExclusiveTargetType, []⟩] := by
  have hb : validateStep (.obj fs) = stepAfter s := by
    simp only [validateStep]
    rw [hf]
    rfl
  rw [hb]
  unfold stepAfter
  dsimp only
  have hne :
      ¬ (([s.operation_id, s.operation_path, s.workflow_id].filterMap id).isEmpty = true) := by
    intro hcon
    rw [List.isEmpty_iff] at hcon
    rw [hcon] at hlen
    simp at hlen
  rw [if_neg hne, if_pos
    (show 1 < ([s.operation_id, s.operation_path, s.workflow_id].filterMap id).length
      by omega)]

theorem checkParamsOperation_err :
    ∀ (ps : List ParamOrReusable) (i : Nat),
      (∃ x ∈ ps, ∃ p, x = .param p ∧ p.in_ = none) →
      ∃ j p, checkParamsOperation i ps
          = .error [⟨.parameterInRequiredForOperation (i + j), []⟩]
        ∧ ps[j]? = some (.param p) ∧ p.in_ = none := by
  intro ps
  induction ps with
  | nil =>
      intro i h
      obtain ⟨x, hx, _⟩ := h
      cases hx
  | cons y ys ih =>
      intro i h
      cases y with
      | param p2 =>
          by_cases hin : p2.in_ = none
          · refine ⟨0, p2, ?_, by simp, hin⟩
            simp only [checkParamsOperation, if_pos hin, Nat.add_zero]
          · obtain ⟨x, hx, p, hxp, hpin⟩ := h
            rcases List.mem_cons.1 hx with rfl | hx2
            · cases hxp
              exact absurd hpin hin
            · obtain ⟨j, p3, hrec, hget, hpin2⟩ := ih (i + 1) ⟨x, hx2, p, hxp, hpin⟩
              refine ⟨j + 1, p3, ?_, by simpa using hget, hpin2⟩
              simp only [checkParamsOperation, if_neg hin]
              rw [show i + (j + 1) = (i + 1) + j by omega]
              exact hrec
      | reusable r =>
          obtain ⟨x, hx, p, hxp, hpin⟩ := h
          rcases List.mem_cons.1 hx with rfl | hx2
          · cases hxp
          · obtain ⟨j, p3, hrec, hget, hpin2⟩ := ih (i + 1) ⟨x, hx2, p, hxp, hpin⟩
            refine ⟨j + 1, p3, ?_, by simpa using hget, hpin2⟩
            simp only [checkParamsOperation]
            rw [show i + (j + 1) = (i + 1) + j by omega]
            exact hrec

theorem validateStep_param_in_error {fs : List (String × JValue)} {s : Step}
    {ps : List ParamOrReusable} (hf : stepFields fs = .ok s)
    (hone : ([s.operation_id, s.operation_path, s.workflow_id].filterMap id).length = 1)
    (hop : (pyTruthy s.operation_id || pyTruthy s.operation_path) = true)
    (hps : s.parameters = some ps)
    (hbad : ∃ x ∈ ps, ∃ p, x = .param p ∧ p.in_ = none) :
    ∃ j p, validateStep (.obj fs)
        = .error [⟨.parameterInRequiredForOperation j, []⟩]
      ∧ ps[j]? = some (.param p) ∧ p.in_ = none := by
  have hb : validateStep (.obj fs) = stepAfter s := by
    simp only [validateStep]
    rw [hf]
    rfl
  obtain ⟨j, p, herr, hget, hpin⟩ := checkParamsOperation_err ps 0 hbad
  rw [Nat.zero_add] at herr
  refine ⟨j, p, ?_, hget, hpin⟩
  rw [hb]
  unfold stepAfter
  dsimp only
  have hne :
      ¬ (([s.operation_id, s.operation_path, s.workflow_id].filterMap id).isEmpty = true) := by
    intro hcon
    rw [List.isEmpty_iff] at hcon
    rw [hcon] at hone
    simp at hone
  have hle :
      ¬ (1 < ([s.operation_id, s.operation_path, s.workflow_id].filterMap id).length) := by
    omega
  rw [if_neg hne, if_neg hle, hps]
  dsimp only
  have hpsne : ¬ (ps.isEmpty = true) := by
    intro hcon
    rw [List.isEmpty_iff] at hcon
    subst hcon
    obtain ⟨x, hx, _⟩ := hbad
    cases hx
  rw [if_neg hpsne, if_pos hop, herr]
  rfl

theorem validateSuccessAction_goto_missing {fs : List (String × JValue)}
    {a : SuccessAction} (hf : successActionFields fs = .ok a)
    (ht : a.type = .goto) (hw : pyTruthy a.workflow_id = false)
    (hs : pyTruthy a.step_id = false) :
    validateSuccessAction (.obj fs) = .error [⟨.gotoMissingTarget, []⟩] := by
  have hb : validateSuccessAction (.obj fs) = successActionAfter a := by
    simp only [validateSuccessAction]
    rw [hf]
    rfl
  rw [hb]
  unfold successActionAfter
  rw [if_pos ht, if_pos (show (!(pyTruthy a.workflow_id || pyTruthy a.step_id)) = true by
    rw [hw, hs]; rfl)]

theorem validateSuccessAction_goto_ok {fs : List (String × JValue)}
    {a : SuccessAction} (hf : successActionFields fs = .ok a)
    (h1 : (pyTruthy a.workflow_id || pyTruthy a.step_id) = true)
    (h2 : (pyTruthy a.workflow_id && pyTruthy a.step_id) = false) :
    validateSuccessAction (.obj fs) = .ok a := by
  have hb : validateSuccessAction (.obj fs) = successActionAfter a := by
    simp only [validateSuccessAction]
    rw [hf]
    rfl
  rw [hb]
  unfold successActionAfter
  by_cases ht : a.type = .goto
  · rw [if_pos ht, if_neg (by rw [h1]; simp), if_neg (by rw [h2]; simp)]
  · rw [if_neg ht]

theorem validateFailureAction_target_missing {fs : List (String × JValue)}
    {a : FailureAction} (hf : failureActionFields fs = .ok a)
    (ht : a.type = .goto ∨ a.type = .retry) (hw : pyTruthy a.workflow_id = false)
    (hs : pyTruthy a.step_id = false) :
    validateFailureAction (.obj fs) = .error [⟨.gotoRetryMissingTarget, []⟩] := by
  have hb : validateFailureAction (.obj fs) = failureActionAfter a := by
    simp only [validateFailureAction]
    rw [hf]
    rfl
  rw [hb]
  unfold failureActionAfter
  rw [if_pos ht, if_pos (show (!(pyTruthy a.workflow_id || pyTruthy a.step_id)) = true by
    rw [hw, hs]; rfl)]

theorem validateFailureAction_target_ok {fs : List (String × JValue)}
    {a : FailureAction} (hf : failureActionFields fs = .ok a)
    (h1 : (pyTruthy a.workflow_id || pyTruthy a.step_id) = true)
    (h2 : (pyTruthy a.workflow_id && pyTruthy a.step_id) = false)
    (h3 : a.type = .retry → a.retry_after ≠ none) :
    validateFailureAction (.obj fs) = .ok a := by
  have hb : validateFailureAction (.obj fs) = failureActionAfter a := by
    simp only [validateFailureAction]
    rw [hf]
    rfl
  rw [hb]
  unfold failureActionAfter
  by_cases ht : a.type = .goto ∨ a.type = .retry
  · rw [if_pos ht, if_neg (by rw [h1]; simp), if_neg (by rw [h2]; simp),
      if_neg (show ¬ (a.type = .retry ∧ a.retry_after = none) by
        rintro ⟨hr, hn⟩
        exact h3 hr hn)]
  · rw [if_neg ht]

theorem validateFailureAction_retry_missing {fs : List (String × JValue)}
    {a : FailureAction} (hf : failureActionFields fs = .ok a)
    (ht : a.type = .retry) (hra : a.retry_after = none)
    (h1 : (pyTruthy a.workflow_id || pyTruthy a.step_id) = true)
    (h2 : (pyTruthy a.workflow_id && pyTruthy a.step_id) = false) :
    validateFailureAction (.obj fs) = .error [⟨.retryMissingRetryAfter, []⟩] := by
  have hb : validateFailureAction (.obj fs) = failureActionAfter a := by
    simp only [validateFailureAction]
    rw [hf]
    rfl
  rw [hb]
  unfold failureActionAfter
  rw [if_pos (Or.inr ht), if_neg (by rw [h1]; simp), if_neg (by rw [h2]; simp),
    if_pos ⟨ht, hra⟩]

theorem validateCriterion_missing_context {fs : List (String × JValue)}
    {c : Criterion} (hf : criterionFields fs = .ok c)
    (hres : criterionResolvedExpression c.type = true) (hctx : c.context = none) :
    validateCriterion (.obj fs) = .error [⟨.missingContextForExpressionType, []⟩] := by
  have hb : validateCriterion (.obj fs) = criterionAfter c := by
    simp only [validateCriterion]
    rw [hf]
    rfl
  rw [hb]
  unfold criterionAfter
  rw [if_pos ⟨hres, hctx⟩]

theorem validateCriterionExpressionType_bad_jsonpath {fs : List (String × JValue)}
    {e : CriterionExpressionType} (hf : criterionExpressionTypeFields fs = .ok e)
    (ht : e.type = .jsonpath) (hv : e.version ≠ draftGoessner) :
    validateCriterionExpressionType (.obj fs)
      = .error [⟨.invalidJsonpathVersion, []⟩] := by
  have hb : validateCriterionExpressionType (.obj fs)
      = criterionExpressionTypeAfter e := by
    simp only [validateCriterionExpressionType]
    rw [hf]
    rfl
  rw [hb]
  unfold criterionExpressionTypeAfter
  rw [if_pos ⟨ht, hv⟩]

theorem validateCriterionExpressionType_bad_xpath {fs : List (String × JValue)}
    {e : CriterionExpressionType} (hf : criterionExpressionTypeFields fs = .ok e)
    (ht : e.type = .xpath) (hv : e.version ∉ xpathVersions) :
    validateCriterionExpressionType (.obj fs)
      = .error [⟨.invalidXpathVersion, []⟩] := by
  have hb : validateCriterionExpressionType (.obj fs)
      = criterionExpressionTypeAfter e := by
    simp only [validateCriterionExpressionType]
    rw [hf]
    rfl
  rw [hb]
  unfold criterionExpressionTypeAfter
  rw [if_neg (show ¬ (e.type = .jsonpath ∧ e.version ≠ draftGoessner) by
      rintro ⟨hj, _⟩
      rw [ht] at hj
      cases hj),
    if_pos ⟨ht, hv⟩]

/-! ### Field-level error membership -/

theorem validateFailureAction_negative_retry_after {fs : List (String × JValue)}
    {q : Rat} (hlk : lookupField fs "retryAfter" "retry_after" = some (.num q))
    (hq : q < 0) :
    ∃ es, validateFailureAction (.obj fs) = .error es
      ∧ (⟨.greaterThanEqual, [.key "retryAfter"]⟩ : VError) ∈ es := by
  have h5 : optFloatGeF fs "retryAfter" "retry_after" 0
      = .error [⟨.greaterThanEqual, [.key "retryAfter"]⟩] := by
    unfold optFloatGeF
    rw [hlk]
    dsimp only
    rw [if_neg (not_le.2 hq)]
  have hmem : (⟨.greaterThanEqual, [.key "retryAfter"]⟩ : VError)
      ∈ [(⟨.greaterThanEqual, [.key "retryAfter"]⟩ : VError)] := List.mem_singleton.2 rfl
  obtain ⟨esA, heA, hmA⟩ := mem_vap_right
    (f := vap (vap (vap (vap
      (.ok fun n t w s ra rl c =>
        FailureAction.mk n t w s ra rl c (extrasOf fs failureActionDeclared))
      (reqStrF fs "name" "name"))
      (reqEnumF fs "type" "type" FailureActionType.ofString))
      (optStrF fs "workflowId" "workflow_id"))
      (optStrF fs "stepId" "step_id")) h5 hmem
  obtain ⟨esB, heB, hmB⟩ := mem_vap_left
    (x := optIntGeF fs "retryLimit" "retry_limit" 0) heA hmA
  obtain ⟨esC, heC, hmC⟩ := mem_vap_left
    (x := withUniqueOpt "criteria" (optListF validateCriterion fs "criteria" "criteria" 0))
    heB hmB
  refine ⟨esC, ?_, hmC⟩
  simp only [validateFailureAction, failureActionFields]
  rw [heC]
  rfl

theorem validateSuccessAction_empty_criteria {fs : List (String × JValue)}
    (hlk : lookupField fs "criteria" "criteria" = some (.arr [])) :
    ∃ es, validateSuccessAction (.obj fs) = .error es
      ∧ (⟨.tooShort, [.key "criteria"]⟩ : VError) ∈ es := by
  have h5 : withUniqueOpt "criteria" (optListF validateCriterion fs "criteria" "criteria" 1)
      = .error [⟨.tooShort, [.key "criteria"]⟩] := by
    unfold withUniqueOpt optListF
    rw [hlk]
    rfl
  have hmem : (⟨.tooShort, [.key "criteria"]⟩ : VError)
      ∈ [(⟨.tooShort, [.key "criteria"]⟩ : VError)] := List.mem_singleton.2 rfl
  obtain ⟨esA, heA, hmA⟩ := mem_vap_right
    (f := vap (vap (vap (vap
      (.ok fun n t w s c =>
        SuccessAction.mk n t w s c (extrasOf fs successActionDeclared))
      (reqStrF fs "name" "name"))
      (reqEnumF fs "type" "type" SuccessActionType.ofString))
      (optStrF fs "workflowId" "workflow_id"))
      (optStrF fs "stepId" "step_id")) h5 hmem
  refine ⟨esA, ?_, hmA⟩
  simp only [validateSuccessAction, successActionFields]
  rw [heA]
  rfl

theorem validateStep_empty_success_criteria {fs : List (String × JValue)}
    (hlk : lookupField fs "successCriteria" "success_criteria" = some (.arr [])) :
    ∃ es, validateStep (.obj fs) = .error es
      ∧ (⟨.tooShort, [.key "successCriteria"]⟩ : VError) ∈ es := by
  have h8 : withUniqueOpt "successCriteria"
      (optListF validateCriterion fs "successCriteria" "success_criteria" 1)
      = .error [⟨.tooShort, [.key "successCriteria"]⟩] := by
    unfold withUniqueOpt optListF
    rw [hlk]
    rfl
  have hmem : (⟨.tooShort, [.key "successCriteria"]⟩ : VError)
      ∈ [(⟨.tooShort, [.key "successCriteria"]⟩ : VError)] := List.mem_singleton.2 rfl
  obtain ⟨esA, heA, hmA⟩ := mem_vap_right
    (f := vap (vap (vap (vap (vap (vap (vap
      (.ok fun sid d oid op wid ps rb sc osu ofa out =>
        Step.mk sid d oid op wid ps rb sc osu ofa out (extrasOf fs stepDeclared))
      (reqStrF fs "stepId" "step_id"))
      (optStrF fs "description" "description"))
      (optStrF fs "operationId" "operation_id"))
      (optStrF fs "operationPath" "operation_path"))
      (optStrF fs "workflowId" "workflow_id"))
      (withUniqueOpt "parameters"
        (optListF validateParamOrReusable fs "parameters" "parameters" 0)))
      (optModelF validateRequestBody fs "requestBody" "request_body")) h8 hmem
  obtain ⟨esB, heB, hmB⟩ := mem_vap_left
    (x := withUniqueOpt "onSuccess"
      (optListF validateSuccessOrReusable fs "onSuccess" "on_success" 0)) heA hmA
  obtain ⟨esC, heC, hmC⟩ := mem_vap_left
    (x := withUniqueOpt "onFailure"
      (optListF validateFailureOrReusable fs "onFailure" "on_failure" 0)) heB hmB
  obtain ⟨esD, heD, hmD⟩ := mem_vap_left
    (x := optStrMapF fs "outputs" "outputs") heC hmC
  refine ⟨esD, ?_, hmD⟩
  simp only [validateStep, stepFields]
  rw [heD]
  rfl

/-! ### Removing `info.version` from an otherwise valid document -/

theorem lookup_map_info (fs : List (String × JValue)) (k : String) :
    (fs.map fun kv => if kv.1 = "info" then (kv.1, dropVersionKey kv.2) else kv).lookup k
      = if k = "info" then (fs.lookup k).map dropVersionKey else fs.lookup k := by
  induction fs with
  | nil => simp
  | cons y ys ih =>
      obtain ⟨k1, v1⟩ := y
      simp only [List.map_cons]
      by_cases h1 : k1 = "info"
      · subst h1
        rw [if_pos rfl]
        by_cases h2 : k = "info"
        · subst h2
          simp [List.lookup]
        · have hne : (k == "info") = false := by simp [h2]
          simp only [List.lookup, hne, if_neg h2]
          rw [ih, if_neg h2]
      · rw [if_neg h1]
        by_cases h2 : k = k1
        · subst h2
          have hkinfo : ¬ (k = "info") := h1
          simp [List.lookup, hkinfo]
        · have hne : (k == k1) = false := by simp [h2]
          simp only [List.lookup, hne]
          rw [ih]

theorem lookup_filter_version (gs : List (String × JValue)) (k : String) :
    (gs.filter fun kv => kv.1 != "version").lookup k
      = if k = "version" then none else gs.lookup k := by
  induction gs with
  | nil => simp
  | cons y ys ih =>
      obtain ⟨k1, v1⟩ := y
      by_cases h1 : k1 = "version"
      · subst h1
        have hf : (("version", v1).1 != "version") = false := by simp
        simp only [List.filter_cons, hf, Bool.false_eq_true, if_false, ih]
        by_cases h2 : k = "version"
        · simp [h2]
        · have hne : (k == "version") = false := by simp [h2]
          simp [h2, List.lookup, hne]
      · have hf : ((k1, v1).1 != "version") = true := by simpa using h1
        simp only [List.filter_cons, hf, if_true]
        by_cases h2 : k = k1
        · subst h2
          have hk : ¬ (k = "version") := h1
          simp [List.lookup, hk]
        · have hne : (k == k1) = false := by simp [h2]
          simp only [List.lookup, hne, ih]

theorem lookupField_mapInfo (fs : List (String × JValue)) (al nm : String)
    (hal : al ≠ "info") (hnm : nm ≠ "info") :
    lookupField (fs.map fun kv => if kv.1 = "info" then (kv.1, dropVersionKey kv.2) else kv)
        al nm
      = lookupField fs al nm := by
  unfold lookupField
  rw [lookup_map_info, lookup_map_info, if_neg hal, if_neg hnm]

theorem lookupField_mapInfo_info (fs : List (String × JValue)) :
    lookupField (fs.map fun kv => if kv.1 = "info" then (kv.1, dropVersionKey kv.2) else kv)
        "info" "info"
      = (lookupField fs "info" "info").map dropVersionKey := by
  unfold lookupField
  rw [lookup_map_info, if_pos rfl]
  cases hl : fs.lookup "info" with
  | some v => rfl
  | none => rfl

theorem lookupField_filterVersion (gs : List (String × JValue)) (k : String)
    (hk : k ≠ "version") :
    lookupField (gs.filter fun kv => kv.1 != "version") k k = lookupField gs k k := by
  unfold lookupField
  rw [lookup_filter_version, if_neg hk]

theorem lookupField_filterVersion_version (gs : List (String × JValue)) :
    lookupField (gs.filter fun kv => kv.1 != "version") "version" "version" = none := by
  unfold lookupField
  rw [lookup_filter_version, if_pos rfl]

theorem reqStrF_congr {fs2 fs : List (String × JValue)} {al nm : String}
    (h : lookupField fs2 al nm = lookupField fs al nm) :
    reqStrF fs2 al nm = reqStrF fs al nm := by
  unfold reqStrF
  rw [h]

theorem optStrF_congr {fs2 fs : List (String × JValue)} {al nm : String}
    (h : lookupField fs2 al nm = lookupField fs al nm) :
    optStrF fs2 al nm = optStrF fs al nm := by
  unfold optStrF
  rw [h]

theorem reqModelF_congr {α : Type} {f : JValue → V α} {fs2 fs : List (String × JValue)}
    {al nm : String} (h : lookupField fs2 al nm = lookupField fs al nm) :
    reqModelF f fs2 al nm = reqModelF f fs al nm := by
  unfold reqModelF
  rw [h]

theorem optModelF_congr {α : Type} {f : JValue → V α} {fs2 fs : List (String × JValue)}
    {al nm : String} (h : lookupField fs2 al nm = lookupField fs al nm) :
    optModelF f fs2 al nm = optModelF f fs al nm := by
  unfold optModelF
  rw [h]

theorem reqListF_congr {α : Type} {f : JValue → V α} {fs2 fs : List (String × JValue)}
    {al nm : String} {m : Nat} (h : lookupField fs2 al nm = lookupField fs al nm) :
    reqListF f fs2 al nm m = reqListF f fs al nm m := by
  unfold reqListF
  rw [h]

theorem arazzoVersionField_congr {fs2 fs : List (String × JValue)}
    (h : lookupField fs2 "arazzo" "arazzo" = lookupField fs "arazzo" "arazzo") :
    arazzoVersionField fs2 = arazzoVersionField fs := by
  unfold arazzoVersionField
  rw [reqStrF_congr h]

/-- Dropping the `version` key of an otherwise valid `info` mapping leaves
exactly the one `missing` error at `version`. -/
theorem infoFields_dropVersion {gs : List (String × JValue)} {i : Info}
    (h : infoFields gs = .ok i) :
    infoFields (gs.filter fun kv => kv.1 != "version")
      = .error [⟨.missing, [.key "version"]⟩] := by
  simp only [infoFields] at h
  rw [vap_eq_ok] at h
  obtain ⟨g1, a4, hg1, h4, _⟩ := h
  rw [vap_eq_ok] at hg1
  obtain ⟨g2, a3, hg2, h3, _⟩ := hg1
  rw [vap_eq_ok] at hg2
  obtain ⟨g3, a2, hg3, h2, _⟩ := hg2
  rw [vap_eq_ok] at hg3
  obtain ⟨g4, a1, hg4, h1, _⟩ := hg3
  simp only [infoFields]
  rw [reqStrF_congr (lookupField_filterVersion gs "title" (by decide)), h1]
  rw [optStrF_congr (lookupField_filterVersion gs "summary" (by decide)), h2]
  rw [optStrF_congr (lookupField_filterVersion gs "description" (by decide)), h3]
  rw [show reqStrF (gs.filter fun kv => kv.1 != "version") "version" "version"
      = .error [⟨.missing, [.key "version"]⟩] by
    unfold reqStrF
    rw [lookupField_filterVersion_version]]
  rfl

/-- `validate_arazzo_data` on a successfully validated document, after the
`version` key is removed from `info`, fails with exactly one error: kind
`missing`, located at `info.version`. -/
theorem validate_arazzo_data_removeInfoVersion {d : JValue} {g : ArazzoSpecification}
    (h : validate_arazzo_data d = .ok g) :
    validate_arazzo_data (removeInfoVersion d)
      = .error [⟨.missing, [.key "info", .key "version"]⟩] := by
  cases d <;> try cases h
  case obj fs =>
    simp only [validate_arazzo_data, arazzoSpecificationFields] at h
    rw [vap_eq_ok] at h
    obtain ⟨g1, a5, hg1, h5, _⟩ := h
    rw [vap_eq_ok] at hg1
    obtain ⟨g2, a4, hg2, h4, _⟩ := hg1
    rw [vap_eq_ok] at hg2
    obtain ⟨g3, a3, hg3, h3, _⟩ := hg2
    rw [vap_eq_ok] at hg3
    obtain ⟨g4, a2, hg4, h2, _⟩ := hg3
    rw [vap_eq_ok] at hg4
    obtain ⟨g5, a1, hg5, h1, _⟩ := hg4
    unfold reqModelF at h2
    cases hlk : lookupField fs "info" "info" with
    | none =>
        rw [hlk] at h2
        cases h2
    | some v =>
        rw [hlk] at h2
        rw [under_eq_ok] at h2
        cases v <;> try cases h2
        case obj gs =>
          have hinfo : infoFields gs = .ok a2 := h2
          simp only [removeInfoVersion, validate_arazzo_data, arazzoSpecificationFields]
          rw [arazzoVersionField_congr (lookupField_mapInfo fs "arazzo" "arazzo"
            (by decide) (by decide)), h1]
          rw [reqListF_congr (lookupField_mapInfo fs "sourceDescriptions"
            "source_descriptions" (by decide) (by decide)), h3]
          rw [reqListF_congr (lookupField_mapInfo fs "workflows" "workflows"
            (by decide) (by decide)), h4]
          rw [optModelF_congr (lookupField_mapInfo fs "components" "components"
            (by decide) (by decide)), h5]
          have hred : reqModelF validateInfo
              (fs.map fun kv => if kv.1 = "info" then (kv.1, dropVersionKey kv.2) else kv)
              "info" "info"
            = under (.key "info") (infoFields (gs.filter fun kv => kv.1 != "version")) := by
            unfold reqModelF
            rw [lookupField_mapInfo_info, hlk]
            rfl
          rw [hred, infoFields_dropVersion hinfo]
          rfl

/-! ### Acceptance characterization for `SourceDescription` name and url -/

theorem sourceNameField_eq (n u : String) :
    sourceNameField [("name", .str n), ("url", .str u)]
      = if namePatternMatch n then .ok n
        else .error [⟨.patternMismatch, [.key "name"]⟩] := rfl

theorem sourceUrlField_eq (n u : String) :
    sourceUrlField [("name", .str n), ("url", .str u)]
      = if hasWhitespace u then .error [⟨.valueError, [.key "url"]⟩]
        else .ok u := rfl

/-- On a mapping carrying exactly a string `name` and a string `url`, the
source-description validator accepts iff the name matches the (actual)
pattern and the url has no whitespace. -/
theorem validateSourceDescription_accepts_iff (n u : String) :
    (∃ sd, validateSourceDescription (.obj [("name", .str n), ("url", .str u)]) = .ok sd)
      ↔ (namePatternMatch n = true ∧ hasWhitespace u = false) := by
  constructor
  · rintro ⟨sd, hsd⟩
    simp only [validateSourceDescription, sourceDescriptionFields] at hsd
    rw [vap_eq_ok] at hsd
    obtain ⟨g1, a3, hg1, h3, _⟩ := hsd
    rw [vap_eq_ok] at hg1
    obtain ⟨g2, a2, hg2, h2, _⟩ := hg1
    rw [vap_eq_ok] at hg2
    obtain ⟨g3, a1, hg3, h1, _⟩ := hg2
    rw [sourceNameField_eq] at h1
    rw [sourceUrlField_eq] at h2
    constructor
    · by_cases hn : namePatternMatch n
      · exact hn
      · rw [if_neg hn] at h1
        cases h1
    · by_cases hu : hasWhitespace u
      · rw [if_pos hu] at h2
        cases h2
      · exact Bool.eq_false_iff.2 hu
  · rintro ⟨hn, hu⟩
    refine ⟨⟨n, u, none, []⟩, ?_⟩
    simp only [validateSourceDescription, sourceDescriptionFields]
    rw [sourceNameField_eq, sourceUrlField_eq, if_pos hn,
      if_neg (show ¬ (hasWhitespace u = true) by rw [hu]; simp)]
    rfl

theorem validateSourceDescription_bad_name (n u : String)
    (hn : namePatternMatch n = false) :
    ∃ es, validateSourceDescription (.obj [("name", .str n), ("url", .str u)])
        = .error es
      ∧ (⟨.patternMismatch, [.key "name"]⟩ : VError) ∈ es := by
  have h1 : sourceNameField [("name", .str n), ("url", .str u)]
      = .error [⟨.patternMismatch, [.key "name"]⟩] := by
    rw [sourceNameField_eq, if_neg (show ¬ (namePatternMatch n = true) by rw [hn]; simp)]
  have hmem : (⟨.patternMismatch, [.key "name"]⟩ : VError)
      ∈ [(⟨.patternMismatch, [.key "name"]⟩ : VError)] := List.mem_singleton.2 rfl
  obtain ⟨esA, heA, hmA⟩ := mem_vap_right
    (f := (.ok fun n2 u2 t => SourceDescription.mk n2 u2 t
      (extrasOf [("name", .str n), ("url", .str u)] sourceDescriptionDeclared) : V _))
    h1 hmem
  obtain ⟨esB, heB, hmB⟩ := mem_vap_left
    (x := sourceUrlField [("name", .str n), ("url", .str u)]) heA hmA
  obtain ⟨esC, heC, hmC⟩ := mem_vap_left
    (x := optEnumF [("name", .str n), ("url", .str u)] "type" "type" SourceType.ofString)
    heB hmB
  exact ⟨esC, heC, hmC⟩

theorem validateSourceDescription_bad_url (n u : String)
    (hu : hasWhitespace u = true) :
    ∃ es, validateSourceDescription (.obj [("name", .str n), ("url", .str u)])
        = .error es
      ∧ (⟨.valueError, [.key "url"]⟩ : VError) ∈ es := by
  have h2 : sourceUrlField [("name", .str n), ("url", .str u)]
      = .error [⟨.valueError, [.key "url"]⟩] := by
    rw [sourceUrlField_eq, if_pos hu]
  have hmem : (⟨.valueError, [.key "url"]⟩ : VError)
      ∈ [(⟨.valueError, [.key "url"]⟩ : VError)] := List.mem_singleton.2 rfl
  obtain ⟨esA, heA, hmA⟩ := mem_vap_right
    (f := vap
      (.ok fun n2 u2 t => SourceDescription.mk n2 u2 t
        (extrasOf [("name", .str n), ("url", .str u)] sourceDescriptionDeclared))
      (sourceNameField [("name", .str n), ("url", .str u)])) h2 hmem
  obtain ⟨esB, heB, hmB⟩ := mem_vap_left
    (x := optEnumF [("name", .str n), ("url", .str u)] "type" "type" SourceType.ofString)
    heA hmA
  exact ⟨esB, heB, hmB⟩

/-! ### Concrete documents -/

open JValue in
/-- A minimal well-formed document (one source description, one workflow,
one operation-targeted step). -/
def minimalDoc : JValue :=
  obj [("arazzo", str "1.0.0"),
       ("info", obj [("title", str "T"), ("version", str "1.0.0")]),
       ("sourceDescriptions",
         arr [obj [("name", str "api"), ("url", str "http://api.example.com")]]),
       ("workflows", arr [obj [("workflowId", str "w1"),
         ("steps", arr [obj [("stepId", str "s1"), ("operationId", str "op1")]])]])]

open JValue in
/-- Like `minimalDoc`, but the step carries `operationId: ""` (present but
empty) and a plain parameter without an `in` location. -/
def emptyOpIdDoc : JValue :=
  obj [("arazzo", str "1.0.0"),
       ("info", obj [("title", str "T"), ("version", str "1.0.0")]),
       ("sourceDescriptions",
         arr [obj [("name", str "api"), ("url", str "http://api.example.com")]]),
       ("workflows", arr [obj [("workflowId", str "w1"),
         ("steps", arr [obj [("stepId", str "s1"), ("operationId", str ""),
           ("parameters", arr [obj [("name", str "myParam"), ("value", str "abc")]])]])]])]

open JValue in
/-- Like `minimalDoc`, but the step carries an `onFailure` action of type
`end` with an explicitly empty `criteria` list. -/
def emptyFailureCriteriaDoc : JValue :=
  obj [("arazzo", str "1.0.0"),
       ("info", obj [("title", str "T"), ("version", str "1.0.0")]),
       ("sourceDescriptions",
         arr [obj [("name", str "api"), ("url", str "http://api.example.com")]]),
       ("workflows", arr [obj [("workflowId", str "w1"),
         ("steps", arr [obj [("stepId", str "s1"), ("operationId", str "op1"),
           ("onFailure", arr [obj [("name", str "f"), ("type", str "end"),
             ("criteria", arr [])]])]])]])]

/-! ### Claims -/

/-- C1.  In every successfully validated document, every step has exactly
one of operationId / operationPath / workflowId non-absent; a step whose
declared fields validate but which carries zero of the three targets is
rejected with `step_missing_target_type`, and one carrying more than one
with `step_exclusive_target_type`. -/
theorem claim_C1 :
    (∀ d g, validate_arazzo_data d = .ok g → ∀ w ∈ g.workflows, ∀ s ∈ w.steps,
      ([s.operation_id, s.operation_path, s.workflow_id].filterMap id).length = 1)
    ∧ (∀ fs s, stepFields fs = .ok s → s.operation_id = none →
        s.operation_path = none → s.workflow_id = none →
        validateStep (.obj fs) = .error [⟨.stepMissingTargetType, []⟩])
    ∧ (∀ fs s, stepFields fs = .ok s →
        2 ≤ ([s.operation_id, s.operation_path, s.workflow_id].filterMap id).length →
        validateStep (.obj fs) = .error [⟨.stepExclusiveTargetType, []⟩]) := by
  refine ⟨?_, ?_, ?_⟩
  · intro d g h w hw s hs
    obtain ⟨_, _, _, _, _, _, hwfs, _⟩ := validate_arazzo_data_WF h
    obtain ⟨_, _, hsteps, _⟩ := hwfs w hw
    exact (hsteps s hs).1
  · intro fs s hf h1 h2 h3
    exact validateStep_missing_target hf h1 h2 h3
  · intro fs s hf hlen
    exact validateStep_exclusive_target hf hlen

theorem claim_C1_witness :
    validateStep (.obj [("stepId", .str "s1")])
        = .error [⟨.stepMissingTargetType, []⟩]
      ∧ validateStep (.obj [("stepId", .str "s1"), ("operationId", .str "op"),
          ("workflowId", .str "w")])
        = .error [⟨.stepExclusiveTargetType, []⟩] :=
  ⟨claim_C1.2.1 _ _ rfl rfl rfl rfl, claim_C1.2.2 _ _ rfl (by decide)⟩

/-- C2 counterexample.  The claim reads "operation-targeted" as operationId
or operationPath being non-absent; but the code tests string truthiness, so
a validated document may contain a step with `operationId = ""` (non-absent)
whose plain parameter has no location tag. -/
theorem claim_C2_counterexample :
    ¬ (∀ d g, validate_arazzo_data d = .ok g →
        ∀ w ∈ g.workflows, ∀ s ∈ w.steps,
          (s.operation_id.isSome = true ∨ s.operation_path.isSome = true) →
          ∀ l, s.parameters = some l → ∀ x ∈ l, ∀ p, x = .param p →
            p.in_.isSome = true) := by
  intro hcl
  have h1 := hcl emptyOpIdDoc _ rfl
  have h2 := h1 _ (List.mem_cons_self _ _)
  have h3 := h2 _ (List.mem_cons_self _ _)
  have h4 := h3 (Or.inl rfl) _ rfl _ (List.mem_cons_self _ _) _ rfl
  simp at h4

/-- C2 amended.  For every step of a validated document whose operationId
or operationPath is truthy (present and non-empty), every plain parameter
carries a location tag; when the declared fields validate, exactly one
target is present, the operation target is truthy and some plain parameter
lacks the tag, the step is rejected with
`parameter_in_required_for_operation` carrying the index of the first such
parameter. -/
theorem claim_C2 :
    (∀ d g, validate_arazzo_data d = .ok g → ∀ w ∈ g.workflows, ∀ s ∈ w.steps,
      (pyTruthy s.operation_id || pyTruthy s.operation_path) = true →
      ∀ l, s.parameters = some l → ∀ x ∈ l, ∀ p, x = .param p → p.in_ ≠ none)
    ∧ (∀ fs s ps, stepFields fs = .ok s →
        ([s.operation_id, s.operation_path, s.workflow_id].filterMap id).length = 1 →
        (pyTruthy s.operation_id || pyTruthy s.operation_path) = true →
        s.parameters = some ps →
        (∃ x ∈ ps, ∃ p, x = .param p ∧ p.in_ = none) →
        ∃ j p, validateStep (.obj fs)
            = .error [⟨.parameterInRequiredForOperation j, []⟩]
          ∧ ps[j]? = some (.param p) ∧ p.in_ = none) := by
  refine ⟨?_, ?_⟩
  · intro d g h w hw s hs hop l hl x hx p hp
    obtain ⟨_, _, _, _, _, _, hwfs, _⟩ := validate_arazzo_data_WF h
    obtain ⟨_, _, hsteps, _⟩ := hwfs w hw
    exact (hsteps s hs).2.1 hop l hl x hx p hp
  · intro fs s ps hf hone hop hps hbad
    exact validateStep_param_in_error hf hone hop hps hbad

theorem claim_C2_witness :
    ∃ j p, validateStep (.obj [("stepId", .str "s1"),
        ("operationId", .str "getSomething"),
        ("parameters", .arr [.obj [("name", .str "myParam"), ("value", .str "abc")]])])
        = .error [⟨.parameterInRequiredForOperation j, []⟩]
      ∧ [ParamOrReusable.param ⟨"myParam", none, .str "abc", []⟩][j]?
          = some (.param p)
      ∧ p.in_ = none :=
  claim_C2.2 _ _ _ rfl (by decide) rfl rfl
    ⟨_, List.mem_cons_self _ _, ⟨"myParam", none, .str "abc", []⟩, rfl, rfl⟩

/-- C3.  Every validated FailureAction of type retry carries a
retryAfter ≥ 0; a field-valid retry action with a truthy exclusive target
but no retryAfter is rejected with `retry_missing_retry_after`; a raw
`retryAfter` below zero is rejected at the field level with a
greater-than-equal error at `retryAfter`. -/
theorem claim_C3 :
    (∀ v a, validateFailureAction v = .ok a → a.type = .retry →
      a.retry_after ≠ none ∧ ∀ q, a.retry_after = some q → 0 ≤ q)
    ∧ (∀ d g, validate_arazzo_data d = .ok g → ∀ w ∈ g.workflows, ∀ s ∈ w.steps,
        ∀ l, s.on_failure = some l → ∀ x ∈ l, ∀ a, x = .action a →
          a.type = .retry → a.retry_after ≠ none ∧ ∀ q, a.retry_after = some q → 0 ≤ q)
    ∧ (∀ fs a, failureActionFields fs = .ok a → a.type = .retry →
        a.retry_after = none →
        (pyTruthy a.workflow_id || pyTruthy a.step_id) = true →
        (pyTruthy a.workflow_id && pyTruthy a.step_id) = false →
        validateFailureAction (.obj fs) = .error [⟨.retryMissingRetryAfter, []⟩])
    ∧ (∀ fs q, lookupField fs "retryAfter" "retry_after" = some (.num q) → q < 0 →
        ∃ es, validateFailureAction (.obj fs) = .error es
          ∧ (⟨.greaterThanEqual, [.key "retryAfter"]⟩ : VError) ∈ es) := by
  refine ⟨?_, ?_, ?_, ?_⟩
  · intro v a h ht
    obtain ⟨_, hra, hge, _, _⟩ := validateFailureAction_WF h
    exact ⟨hra ht, hge⟩
  · intro d g h w hw s hs l hl x hx a hxa ht
    obtain ⟨_, _, _, _, _, _, hwfs, _⟩ := validate_arazzo_data_WF h
    obtain ⟨_, _, hsteps, _⟩ := hwfs w hw
    obtain ⟨_, _, _, _, _, _, hof, _⟩ := hsteps s hs
    have hx2 := (hof l hl).2 x hx
    rw [hxa] at hx2
    obtain ⟨_, hra, hge, _, _⟩ := hx2
    exact ⟨hra ht, hge⟩
  · intro fs a hf ht hra h1 h2
    exact validateFailureAction_retry_missing hf ht hra h1 h2
  · intro fs q hlk hq
    exact validateFailureAction_negative_retry_after hlk hq

theorem claim_C3_witness :
    validateFailureAction (.obj [("name", .str "f"), ("type", .str "retry"),
        ("workflowId", .str "w")])
        = .error [⟨.retryMissingRetryAfter, []⟩]
      ∧ ∃ es, validateFailureAction (.obj [("name", .str "f"), ("type", .str "retry"),
          ("workflowId", .str "w"), ("retryAfter", .num (-1))])
          = .error es
        ∧ (⟨.greaterThanEqual, [.key "retryAfter"]⟩ : VError) ∈ es :=
  ⟨claim_C3.2.2.1 _ _ rfl rfl rfl rfl rfl,
   claim_C3.2.2.2 _ (-1) rfl (by decide)⟩

/-- C4.  A validated criterion whose resolved type is an expression type
(jsonpath/xpath tag, or any expression-type object) carries a context, and
a field-valid criterion lacking it is rejected with
`missing_context_for_expression_type`; a validated expression-type object
carries the single recognized jsonpath token resp. one of the three xpath
tokens, the violations being rejected with `invalid_jsonpath_version` resp.
`invalid_xpath_version`. -/
theorem claim_C4 :
    (∀ v c, validateCriterion v = .ok c →
      criterionResolvedExpression c.type = true → c.context.isSome = true)
    ∧ (∀ d g, validate_arazzo_data d = .ok g → ∀ w ∈ g.workflows, ∀ s ∈ w.steps,
        ∀ l, s.success_criteria = some l → ∀ c ∈ l,
          criterionResolvedExpression c.type = true → c.context.isSome = true)
    ∧ (∀ fs c, criterionFields fs = .ok c →
        criterionResolvedExpression c.type = true → c.context = none →
        validateCriterion (.obj fs) = .error [⟨.missingContextForExpressionType, []⟩])
    ∧ (∀ v e, validateCriterionExpressionType v = .ok e →
        (e.type = .jsonpath → e.version = draftGoessner)
          ∧ (e.type = .xpath → e.version ∈ xpathVersions))
    ∧ (∀ fs e, criterionExpressionTypeFields fs = .ok e → e.type = .jsonpath →
        e.version ≠ draftGoessner →
        validateCriterionExpressionType (.obj fs)
          = .error [⟨.invalidJsonpathVersion, []⟩])
    ∧ (∀ fs e, criterionExpressionTypeFields fs = .ok e → e.type = .xpath →
        e.version ∉ xpathVersions →
        validateCriterionExpressionType (.obj fs)
          = .error [⟨.invalidXpathVersion, []⟩]) := by
  refine ⟨?_, ?_, ?_, ?_, ?_, ?_⟩
  · intro v c h
    exact (validateCriterion_WF h).1
  · intro d g h w hw s hs l hl c hc
    obtain ⟨_, _, _, _, _, _, hwfs, _⟩ := validate_arazzo_data_WF h
    obtain ⟨_, _, hsteps, _⟩ := hwfs w hw
    obtain ⟨_, _, _, _, hsc, _⟩ := hsteps s hs
    exact ((hsc l hl).2 c hc).1
  · intro fs c hf hres hctx
    exact validateCriterion_missing_context hf hres hctx
  · intro v e h
    exact validateCriterionExpressionType_WF h
  · intro fs e hf ht hv
    exact validateCriterionExpressionType_bad_jsonpath hf ht hv
  · intro fs e hf ht hv
    exact validateCriterionExpressionType_bad_xpath hf ht hv

theorem claim_C4_witness :
    validateCriterion (.obj [("condition", .str "$x"), ("type", .str "jsonpath")])
        = .error [⟨.missingContextForExpressionType, []⟩]
      ∧ validateCriterionExpressionType
          (.obj [("type", .str "jsonpath"), ("version", .str "v9")])
        = .error [⟨.invalidJsonpathVersion, []⟩]
      ∧ validateCriterionExpressionType
          (.obj [("type", .str "xpath"), ("version", .str "xpath-99")])
        = .error [⟨.invalidXpathVersion, []⟩] :=
  ⟨claim_C4.2.2.1 _ _ rfl rfl rfl,
   claim_C4.2.2.2.2.1 _ _ rfl rfl (by decide),
   claim_C4.2.2.2.2.2 _ _ rfl rfl (by decide)⟩

/-- C5 counterexample.  The claim requires an explicitly empty criteria
list on a FailureAction to be rejected; but `FailureAction.criteria`
carries no minimum length, so a document whose failure action has
`criteria: []` validates. -/
theorem claim_C5_counterexample :
    ¬ (∀ d g, validate_arazzo_data d = .ok g → ∀ w ∈ g.workflows, ∀ s ∈ w.steps,
        ∀ l, s.on_failure = some l → ∀ x ∈ l, ∀ a, x = .action a →
          a.criteria ≠ some []) := by
  intro hcl
  exact hcl emptyFailureCriteriaDoc _ rfl _ (List.mem_cons_self _ _) _
    (List.mem_cons_self _ _) _ rfl _ (List.mem_cons_self _ _) _ rfl rfl

/-- C5 amended.  In a validated document, sourceDescriptions, workflows and
every workflow's steps are non-empty; a step's successCriteria and a
SuccessAction's criteria are never explicitly empty (an explicit empty list
is rejected `too_short`); but `FailureAction.criteria` has no minimum
length, and an explicitly empty criteria list on a failure action
validates. -/
theorem claim_C5 :
    (∀ d g, validate_arazzo_data d = .ok g →
      g.source_descriptions ≠ [] ∧ g.workflows ≠ []
        ∧ ∀ w ∈ g.workflows, w.steps ≠ []
            ∧ ∀ s ∈ w.steps, s.success_criteria ≠ some []
                ∧ ∀ l, s.on_success = some l → ∀ x ∈ l, ∀ a, x = .action a →
                    a.criteria ≠ some [])
    ∧ (∀ fs, lookupField fs "successCriteria" "success_criteria" = some (.arr []) →
        ∃ es, validateStep (.obj fs) = .error es
          ∧ (⟨.tooShort, [.key "successCriteria"]⟩ : VError) ∈ es)
    ∧ (∀ fs, lookupField fs "criteria" "criteria" = some (.arr []) →
        ∃ es, validateSuccessAction (.obj fs) = .error es
          ∧ (⟨.tooShort, [.key "criteria"]⟩ : VError) ∈ es)
    ∧ (∃ a, validateFailureAction (.obj [("name", .str "f"), ("type", .str "end"),
          ("criteria", .arr [])]) = .ok a ∧ a.criteria = some []) := by
  refine ⟨?_, ?_, ?_, ?_⟩
  · intro d g h
    obtain ⟨_, hsd, _, _, hwf, _, hwfs, _⟩ := validate_arazzo_data_WF h
    refine ⟨hsd, hwf, ?_⟩
    intro w hw
    obtain ⟨hne, _, hsteps, _⟩ := hwfs w hw
    refine ⟨hne, ?_⟩
    intro s hs
    obtain ⟨_, _, hsc, _, _, hos, _, _⟩ := hsteps s hs
    refine ⟨hsc, ?_⟩
    intro l hl x hx a hxa
    have hwf2 := (hos l hl).2 x hx
    rw [hxa] at hwf2
    exact hwf2.2.1
  · intro fs hlk
    exact validateStep_empty_success_criteria hlk
  · intro fs hlk
    exact validateSuccessAction_empty_criteria hlk
  · exact ⟨_, rfl, rfl⟩

theorem claim_C5_witness :
    (∃ es, validateStep (.obj [("stepId", .str "s"), ("operationId", .str "op"),
        ("successCriteria", .arr [])]) = .error es
      ∧ (⟨.tooShort, [.key "successCriteria"]⟩ : VError) ∈ es)
    ∧ (∃ es, validateSuccessAction (.obj [("name", .str "a"), ("type", .str "end"),
        ("criteria", .arr [])]) = .error es
      ∧ (⟨.tooShort, [.key "criteria"]⟩ : VError) ∈ es) :=
  ⟨claim_C5.2.1 _ rfl, claim_C5.2.2.1 _ rfl⟩

/-- C6 counterexample.  The claim's character class is
`[A-Za-z0-9_-]`; but the raw-string pattern contains an escaped backslash
inside the class, so the name `a\b` — whose backslash lies outside the
claimed class — is accepted. -/
theorem claim_C6_counterexample :
    ¬ (∀ n u sd,
        validateSourceDescription (.obj [("name", .str n), ("url", .str u)])
          = .ok sd →
        ∀ c ∈ n.data, ('A' ≤ c ∧ c ≤ 'Z') ∨ ('a' ≤ c ∧ c ≤ 'z')
          ∨ ('0' ≤ c ∧ c ≤ '9') ∨ c = '_' ∨ c = '-') := by
  intro hcl
  have h := hcl "a\\b" "u" _ rfl '\\' (by decide)
  exact absurd h (by decide)

/-- C6 amended.  A SourceDescription with the given name and url validates
iff the name matches the source's pattern and the url has no whitespace;
the pattern — a raw string with an escaped backslash in the class — accepts
exactly the non-empty strings over ASCII letters, digits, underscore,
backslash and hyphen; pattern violations are rejected with a
pattern-mismatch error at `name`, and whitespace in the url with a value
error at `url`. -/
theorem claim_C6 :
    (∀ n u, (∃ sd, validateSourceDescription
          (.obj [("name", .str n), ("url", .str u)]) = .ok sd)
        ↔ (namePatternMatch n = true ∧ hasWhitespace u = false))
    ∧ (∀ n, namePatternMatch n = true ↔
        n.data ≠ [] ∧ ∀ c ∈ n.data,
          ('A' ≤ c ∧ c ≤ 'Z') ∨ ('a' ≤ c ∧ c ≤ 'z') ∨ ('0' ≤ c ∧ c ≤ '9')
            ∨ c = '_' ∨ c = '\\' ∨ c = '-')
    ∧ (∀ n u, namePatternMatch n = false →
        ∃ es, validateSourceDescription (.obj [("name", .str n), ("url", .str u)])
            = .error es
          ∧ (⟨.patternMismatch, [.key "name"]⟩ : VError) ∈ es)
    ∧ (∀ n u, hasWhitespace u = true →
        ∃ es, validateSourceDescription (.obj [("name", .str n), ("url", .str u)])
            = .error es
          ∧ (⟨.valueError, [.key "url"]⟩ : VError) ∈ es) := by
  have hchar : ∀ c : Char, isNamePatternChar c = true ↔
      ('A' ≤ c ∧ c ≤ 'Z') ∨ ('a' ≤ c ∧ c ≤ 'z') ∨ ('0' ≤ c ∧ c ≤ '9')
        ∨ c = '_' ∨ c = '\\' ∨ c = '-' := by
    intro c
    unfold isNamePatternChar
    simp only [Bool.or_eq_true, decide_eq_true_eq]
    tauto
  refine ⟨?_, ?_, ?_, ?_⟩
  · intro n u
    exact validateSourceDescription_accepts_iff n u
  · intro n
    unfold namePatternMatch
    rw [Bool.and_eq_true, List.all_eq_true]
    constructor
    · rintro ⟨h1, h2⟩
      refine ⟨?_, fun c hc => (hchar c).1 (h2 c hc)⟩
      intro hnil
      rw [hnil] at h1
      simp at h1
    · rintro ⟨h1, h2⟩
      refine ⟨?_, fun c hc => (hchar c).2 (h2 c hc)⟩
      cases hd : n.data with
      | nil => exact absurd hd h1
      | cons a t => rfl
  · intro n u hn
    exact validateSourceDescription_bad_name n u hn
  · intro n u hu
    exact validateSourceDescription_bad_url n u hu

theorem claim_C6_witness :
    (∃ sd, validateSourceDescription
        (.obj [("name", .str "api_1-x"), ("url", .str "http://e")]) = .ok sd)
    ∧ (∃ es, validateSourceDescription
        (.obj [("name", .str "bad name"), ("url", .str "u")]) = .error es
      ∧ (⟨.patternMismatch, [.key "name"]⟩ : VError) ∈ es)
    ∧ (∃ es, validateSourceDescription
        (.obj [("name", .str "n"), ("url", .str "u u")]) = .error es
      ∧ (⟨.valueError, [.key "url"]⟩ : VError) ∈ es) :=
  ⟨(claim_C6.1 "api_1-x" "http://e").2 ⟨rfl, rfl⟩,
   claim_C6.2.2.1 "bad name" "u" rfl,
   claim_C6.2.2.2 "n" "u u" rfl⟩

/-- C7.  In every validated document the identifier-keyed lists
(sourceDescriptions by name, workflows by workflowId, steps by stepId) and
the value-keyed unique lists (workflow/step parameters, dependsOn,
successCriteria, onSuccess, onFailure, workflow successActions and
failureActions, the criteria list of every success/failure action in those
lists, and RequestBody replacements) have no duplicates; and the duplicate
scan feeding the error message reports a value iff it occurs at least
twice, i.e. every distinct duplicate, not only the first. -/
theorem claim_C7 :
    (∀ d g, validate_arazzo_data d = .ok g →
      (g.source_descriptions.map SourceDescription.name).Nodup
        ∧ (g.workflows.map Workflow.workflow_id).Nodup
        ∧ ∀ w ∈ g.workflows, (w.steps.map Step.step_id).Nodup
            ∧ (∀ l, w.parameters = some l → l.Nodup)
            ∧ (∀ l, w.depends_on = some l → l.Nodup)
            ∧ (∀ l, w.success_actions = some l → l.Nodup
                ∧ ∀ x ∈ l, ∀ a, x = .action a →
                    ∀ cl, a.criteria = some cl → cl.Nodup)
            ∧ (∀ l, w.failure_actions = some l → l.Nodup
                ∧ ∀ x ∈ l, ∀ a, x = .action a →
                    ∀ cl, a.criteria = some cl → cl.Nodup)
            ∧ ∀ s ∈ w.steps, (∀ l, s.parameters = some l → l.Nodup)
                ∧ (∀ l, s.success_criteria = some l → l.Nodup)
                ∧ (∀ l, s.on_success = some l → l.Nodup
                    ∧ ∀ x ∈ l, ∀ a, x = .action a →
                        ∀ cl, a.criteria = some cl → cl.Nodup)
                ∧ (∀ l, s.on_failure = some l → l.Nodup
                    ∧ ∀ x ∈ l, ∀ a, x = .action a →
                        ∀ cl, a.criteria = some cl → cl.Nodup)
                ∧ (∀ rb, s.request_body = some rb →
                    ∀ l, rb.replacements = some l → l.Nodup))
    ∧ (∀ (α : Type) [DecidableEq α] (l : List α) (x : α),
        x ∈ reportedDuplicates l ↔ 2 ≤ l.count x) := by
  refine ⟨?_, ?_⟩
  · intro d g h
    obtain ⟨_, _, hsdu, _, _, hwfu, hwfs, _⟩ := validate_arazzo_data_WF h
    refine ⟨(idsUnique_iff_nodup _).1 hsdu, (idsUnique_iff_nodup _).1 hwfu, ?_⟩
    intro w hw
    obtain ⟨_, hsu, hsteps, hdep, hsa, hfa, hpar⟩ := hwfs w hw
    refine ⟨(idsUnique_iff_nodup _).1 hsu,
        fun l hl => (uniqueOk_iff_nodup _).1 (hpar l hl),
        fun l hl => (uniqueOk_iff_nodup _).1 (hdep l hl), ?_, ?_, ?_⟩
    · intro l hl
      refine ⟨(uniqueOk_iff_nodup _).1 (hsa l hl).1, ?_⟩
      intro x hx a hxa cl hcl
      have hwfx := (hsa l hl).2 x hx
      rw [hxa] at hwfx
      exact (uniqueOk_iff_nodup _).1 (hwfx.2.2 cl hcl).1
    · intro l hl
      refine ⟨(uniqueOk_iff_nodup _).1 (hfa l hl).1, ?_⟩
      intro x hx a hxa cl hcl
      have hwfx := (hfa l hl).2 x hx
      rw [hxa] at hwfx
      exact (uniqueOk_iff_nodup _).1 (hwfx.2.2.2.2 cl hcl).1
    · intro s hs
      obtain ⟨_, _, _, hp, hsc, hos, hof, hrb⟩ := hsteps s hs
      refine ⟨fun l hl => (uniqueOk_iff_nodup _).1 (hp l hl),
          fun l hl => (uniqueOk_iff_nodup _).1 (hsc l hl).1, ?_, ?_, ?_⟩
      · intro l hl
        refine ⟨(uniqueOk_iff_nodup _).1 (hos l hl).1, ?_⟩
        intro x hx a hxa cl hcl
        have hwfx := (hos l hl).2 x hx
        rw [hxa] at hwfx
        exact (uniqueOk_iff_nodup _).1 (hwfx.2.2 cl hcl).1
      · intro l hl
        refine ⟨(uniqueOk_iff_nodup _).1 (hof l hl).1, ?_⟩
        intro x hx a hxa cl hcl
        have hwfx := (hof l hl).2 x hx
        rw [hxa] at hwfx
        exact (uniqueOk_iff_nodup _).1 (hwfx.2.2.2.2 cl hcl).1
      · intro rb hrb2 l hl
        exact (uniqueOk_iff_nodup _).1 (hrb rb hrb2 l hl)
  · intro α _ l x
    exact mem_reportedDuplicates l x

theorem claim_C7_witness :
    (∃ g, validate_arazzo_data minimalDoc = .ok g
      ∧ (g.workflows.map Workflow.workflow_id).Nodup)
    ∧ ("a" ∈ reportedDuplicates ["a", "b", "a"]
        ↔ 2 ≤ List.count "a" ["a", "b", "a"]) :=
  ⟨⟨_, rfl, (claim_C7.1 minimalDoc _ rfl).2.1⟩,
   claim_C7.2 String ["a", "b", "a"] "a"⟩

/-- C8.  For any document that validates, removing the version key from its
info mapping makes validation fail with exactly one error: a missing
required field at path info.version — no other field reports an error. -/
theorem claim_C8 : ∀ d g, validate_arazzo_data d = .ok g →
    validate_arazzo_data (removeInfoVersion d)
      = .error [⟨.missing, [.key "info", .key "version"]⟩] := by
  intro d g h
  exact validate_arazzo_data_removeInfoVersion h

theorem claim_C8_witness :
    validate_arazzo_data (removeInfoVersion minimalDoc)
      = .error [⟨.missing, [.key "info", .key "version"]⟩] :=
  claim_C8 minimalDoc _ rfl

/-- C9.  Validation is deterministic and idempotent: it is a pure function
of the input tree, so re-validating an input that succeeded succeeds again
with the identical object graph. -/
theorem claim_C9 : ∀ d g, validate_arazzo_data d = .ok g →
    validate_arazzo_data d = .ok g
      ∧ ∀ g2, validate_arazzo_data d = .ok g2 → g2 = g := by
  intro d g h
  refine ⟨h, ?_⟩
  intro g2 h2
  rw [h] at h2
  cases h2
  rfl

theorem claim_C9_witness :
    ∃ g, validate_arazzo_data minimalDoc = .ok g
      ∧ ∀ g2, validate_arazzo_data minimalDoc = .ok g2 → g2 = g :=
  ⟨_, (claim_C9 minimalDoc _ rfl).1, (claim_C9 minimalDoc _ rfl).2⟩

/-- C10.  Goto/retry target presence is string truthiness: a field-valid
goto success action (resp. goto-or-retry failure action) whose workflowId
and stepId are both present but empty is rejected with goto_missing_target
(resp. goto_retry_missing_target); when both are present and exactly one is
empty, no exclusive-target error is raised and the action validates. -/
theorem claim_C10 :
    (∀ fs a, successActionFields fs = .ok a → a.type = .goto →
      a.workflow_id = some "" → a.step_id = some "" →
      validateSuccessAction (.obj fs) = .error [⟨.gotoMissingTarget, []⟩])
    ∧ (∀ fs a, failureActionFields fs = .ok a →
        (a.type = .goto ∨ a.type = .retry) →
        a.workflow_id = some "" → a.step_id = some "" →
        validateFailureAction (.obj fs) = .error [⟨.gotoRetryMissingTarget, []⟩])
    ∧ (∀ fs a, successActionFields fs = .ok a →
        a.step_id = some "" → pyTruthy a.workflow_id = true →
        validateSuccessAction (.obj fs) = .ok a)
    ∧ (∀ fs a, failureActionFields fs = .ok a →
        a.workflow_id = some "" → pyTruthy a.step_id = true →
        (a.type = .retry → a.retry_after ≠ none) →
        validateFailureAction (.obj fs) = .ok a) := by
  refine ⟨?_, ?_, ?_, ?_⟩
  · intro fs a hf ht hw hs
    refine validateSuccessAction_goto_missing hf ht ?_ ?_
    · rw [hw]; rfl
    · rw [hs]; rfl
  · intro fs a hf ht hw hs
    refine validateFailureAction_target_missing hf ht ?_ ?_
    · rw [hw]; rfl
    · rw [hs]; rfl
  · intro fs a hf hs hw
    refine validateSuccessAction_goto_ok hf ?_ ?_
    · rw [hw]; rfl
    · rw [hs]
      simp [pyTruthy]
  · intro fs a hf hw hs hra
    refine validateFailureAction_target_ok hf ?_ ?_ hra
    · rw [hs]
      simp
    · rw [hw]
      simp [pyTruthy]

theorem claim_C10_witness :
    validateSuccessAction (.obj [("name", .str "a"), ("type", .str "goto"),
        ("workflowId", .str ""), ("stepId", .str "")])
      = .error [⟨.gotoMissingTarget, []⟩]
    ∧ validateFailureAction (.obj [("name", .str "f"), ("type", .str "retry"),
        ("workflowId", .str ""), ("stepId", .str "")])
      = .error [⟨.gotoRetryMissingTarget, []⟩]
    ∧ (∃ a, validateSuccessAction (.obj [("name", .str "a"), ("type", .str "goto"),
        ("workflowId", .str "w"), ("stepId", .str "")]) = .ok a)
    ∧ (∃ a, validateFailureAction (.obj [("name", .str "f"), ("type", .str "goto"),
        ("workflowId", .str ""), ("stepId", .str "s")]) = .ok a) :=
  ⟨claim_C10.1 _ _ rfl rfl rfl rfl,
   claim_C10.2.1 _ _ rfl (Or.inr rfl) rfl rfl,
   ⟨_, claim_C10.2.2.1 _ _ rfl rfl rfl⟩,
   ⟨_, claim_C10.2.2.2 _ _ rfl rfl rfl (fun ht => by cases ht)⟩⟩

end Arazzo
